import Mathlib

/-!
Verification of the ProxyGate network access control and relay subsystem.

This file gives a shallow embedding, in Lean 4, of the four core components
of the ProxyGate backend:

* the TLS multiplex relay (backend/scripts/tls_proxy.py),
* the domain-to-route resolver (app/services/domain_resolver.py),
* the access-list builder / firewall sync (app/services/proxy_manager.py),
* the brute-force guard (app/services/security_service.py),

and proves or refutes the specification claims about them.  Pure Python
functions are translated as Lean functions; byte strings are `List Nat`
(each element a byte value); Python `str` is Lean `String` or `List Char`;
`datetime` values are `Int` counts of minutes; database and socket effects
are made explicit as state passed in and out.
-/

set_option maxRecDepth 40000

/-! ## Python-style string and byte-string primitives -/

/-- Lexicographic comparison of character lists by code point, the order
Python uses for `str` comparison and `sorted`. -/
def strLeB : List Char → List Char → Bool
  | [], _ => true
  | _ :: _, [] => false
  | a :: as, b :: bs =>
    if a.toNat < b.toNat then true
    else if b.toNat < a.toNat then false
    else strLeB as bs

/-- Python's `<=` on strings: lexicographic by code point. -/
def pyLe (s t : String) : Prop := strLeB s.data t.data = true

instance : DecidableRel pyLe := fun _ _ => inferInstanceAs (Decidable (_ = true))

theorem strLeB_total (a b : List Char) : strLeB a b = true ∨ strLeB b a = true := by
  induction a generalizing b with
  | nil => left; rfl
  | cons x xs ih =>
    cases b with
    | nil => right; rfl
    | cons y ys =>
      rcases Nat.lt_trichotomy x.toNat y.toNat with h | h | h
      · left; simp only [strLeB, if_pos h]
      · rcases ih ys with h2 | h2
        · left; simp only [strLeB]
          rw [if_neg (by omega), if_neg (by omega)]; exact h2
        · right; simp only [strLeB]
          rw [if_neg (by omega), if_neg (by omega)]; exact h2
      · right; simp only [strLeB, if_pos h]

theorem strLeB_trans {a b c : List Char} (h1 : strLeB a b = true)
    (h2 : strLeB b c = true) : strLeB a c = true := by
  induction a generalizing b c with
  | nil => rfl
  | cons x xs ih =>
    cases b with
    | nil => simp [strLeB] at h1
    | cons y ys =>
      cases c with
      | nil => simp [strLeB] at h2
      | cons z zs =>
        simp only [strLeB] at h1 h2 ⊢
        by_cases hxy : x.toNat < y.toNat
        · rw [if_pos hxy] at h1
          by_cases hyz : y.toNat < z.toNat
          · rw [if_pos (by omega)]
          · rw [if_neg hyz] at h2
            by_cases hzy : z.toNat < y.toNat
            · rw [if_pos hzy] at h2; exact absurd h2 (by simp)
            · rw [if_pos (by omega)]
        · rw [if_neg hxy] at h1
          by_cases hyx : y.toNat < x.toNat
          · rw [if_pos hyx] at h1; exact absurd h1 (by simp)
          · rw [if_neg hyx] at h1
            by_cases hyz : y.toNat < z.toNat
            · rw [if_pos (by omega)]
            · rw [if_neg hyz] at h2
              by_cases hzy : z.toNat < y.toNat
              · rw [if_pos hzy] at h2; exact absurd h2 (by simp)
              · rw [if_neg hzy] at h2
                rw [if_neg (by omega), if_neg (by omega)]
                exact ih h1 h2

instance : IsTotal String pyLe where
  total s t := strLeB_total s.data t.data

instance : IsTrans String pyLe where
  trans _ _ _ h1 h2 := strLeB_trans h1 h2

/-- Python's `sorted` on a list of strings (ascending lexicographic order). -/
def sortStrs (l : List String) : List String := List.insertionSort pyLe l

/-- The six ASCII characters Python's `str.strip()` and `str.split()` treat
as whitespace: space, tab, newline, carriage return, vertical tab, form feed. -/
def isPyWs (c : Char) : Bool :=
  c == ' ' || c == '\t' || c == '\n' || c == '\r' || c.toNat == 11 || c.toNat == 12

/-- Python's `str.strip()` with no argument (ASCII fragment). -/
def stripWs (l : List Char) : List Char :=
  ((l.dropWhile isPyWs).reverse.dropWhile isPyWs).reverse

/-- ASCII decimal digit test, as used by Python's `int()` and `str.isdigit()`
on ASCII input. -/
def pyDigit (c : Char) : Bool := 48 ≤ c.toNat && c.toNat ≤ 57

def digitVal (c : Char) : Nat := c.toNat - 48

/-- Digit accumulation for Python's `int()`: digits, with single underscores
allowed between digits. -/
def pyIntGo : Nat → List Char → Option Nat
  | acc, [] => some acc
  | acc, c :: rest =>
    if pyDigit c then pyIntGo (acc * 10 + digitVal c) rest
    else if c == '_' then
      match rest with
      | d :: rest' => if pyDigit d then pyIntGo (acc * 10 + digitVal d) rest' else none
      | [] => none
    else none

/-- The unsigned body of a Python `int()` parse: must begin with a digit. -/
def pyIntCore : List Char → Option Nat
  | [] => none
  | c :: rest => if pyDigit c then pyIntGo (digitVal c) rest else none

/-- Python's `int(s)` on an ASCII string: surrounding whitespace stripped,
optional single sign, then digits with underscores between digits; `none`
models `ValueError`. -/
def pyInt (l : List Char) : Option Int :=
  match stripWs l with
  | '+' :: r => (pyIntCore r).map (fun n => (n : Int))
  | '-' :: r => (pyIntCore r).map (fun n => -(n : Int))
  | r => (pyIntCore r).map (fun n => (n : Int))

/-- Decimal rendering of a natural number, fuelled so that it is structurally
recursive (the fuel is an upper bound on the number itself). -/
def renderNatAux : Nat → Nat → List Char
  | 0, _ => []
  | fuel + 1, n =>
    if n < 10 then [Nat.digitChar n]
    else renderNatAux fuel (n / 10) ++ [Nat.digitChar (n % 10)]

/-- Python's `str(n)` for a natural number. -/
def renderNat (n : Nat) : List Char := renderNatAux (n + 1) n

/-- Python's `str(i)` for an integer. -/
def renderInt (i : Int) : List Char :=
  if i < 0 then '-' :: renderNat i.natAbs else renderNat i.natAbs

/-- Value of a digit string (the fold Python's `int()` performs). -/
def digitsVal (l : List Char) : Nat := l.foldl (fun acc c => acc * 10 + digitVal c) 0

/-- Splitting a character list at every occurrence of a separator character,
as Python's `str.split(sep)` does. -/
def splitOnChar (sep : Char) : List Char → List (List Char)
  | [] => [[]]
  | x :: xs =>
    if x == sep then [] :: splitOnChar sep xs
    else
      match splitOnChar sep xs with
      | [] => [[x]]
      | y :: ys => (x :: y) :: ys

/-- Python's `str.split()` with no argument: split on runs of whitespace,
discarding leading and trailing whitespace. -/
def splitWsAux (cur : List Char) : List Char → List (List Char)
  | [] => if cur.isEmpty then [] else [cur.reverse]
  | c :: rest =>
    if isPyWs c then
      if cur.isEmpty then splitWsAux [] rest else cur.reverse :: splitWsAux [] rest
    else splitWsAux (c :: cur) rest

def splitWs (l : List Char) : List (List Char) := splitWsAux [] l

/-- Python's `pat in data` for byte strings: does `pat` occur as a contiguous
subsequence of `data`? -/
def hasSub (pat : List Nat) : List Nat → Bool
  | [] => pat.isEmpty
  | x :: xs => pat.isPrefixOf (x :: xs) || hasSub pat xs

/-- `data.split(sep2)[0]` for a two-byte separator: the bytes before the first
occurrence of `[a, b]` (the whole input when it never occurs). -/
def takeTo2 (a b : Nat) : List Nat → List Nat
  | [] => []
  | x :: rest =>
    if [a, b].isPrefixOf (x :: rest) then [] else x :: takeTo2 a b rest

/-- Encoding of an ASCII string literal as a byte string. -/
def bytesOf (s : String) : List Nat := s.data.map Char.toNat

/-- Python's `bytes.decode("utf-8", errors="replace")`, modelled on the ASCII
fragment: bytes below 128 decode to themselves, any other byte becomes the
replacement character U+FFFD.  (A valid multi-byte UTF-8 sequence would decode
to one non-ASCII character in Python; the protocol text the relay inspects is
ASCII, where this model is exact.) -/
def decodeReplace (bs : List Nat) : List Char :=
  bs.map fun b => if b < 128 then Char.ofNat b else Char.ofNat 0xFFFD

/-- Python's `str.upper()` (ASCII fragment). -/
def pyUpper (l : List Char) : List Char := l.map Char.toUpper

/-! ## TLS multiplex relay (backend/scripts/tls_proxy.py)

The relay's `handle_client` reads from the decrypted client stream, decides
between the CONNECT tunnel path and the plain web path, and hands off to
`handle_connect` or `handle_http`.  The incoming stream is modelled as the
list of chunks successive `recv` calls return; an empty chunk is a `recv`
returning `b""` (peer closed), and an exhausted list likewise models a closed
stream. -/

/-- Outcome of `handle_client`'s classification phase.
`closedNoBackend`: the function returned before opening any backend
connection (stream ended while reading).  `badRequest`: a CONNECT line with
fewer than two words; `HTTP/1.1 400` is sent and no backend is opened.
`tunnel host port`: `handle_connect` is invoked, which immediately opens a
connection to the tunnel (3proxy) backend.  `web buffered`: `handle_http` is
invoked with the buffered bytes, which immediately opens a connection to the
web (nginx) backend. -/
inductive Classification where
  | closedNoBackend
  | badRequest
  | tunnel (host : List Char) (port : Int)
  | web (buffered : List Nat)
deriving DecidableEq

/-- The first read loop of `handle_client`: accumulate chunks until the
buffer contains `b"\r\n"`, returning `none` if the stream ends first, and
breaking out of the loop (buffer kept, possibly still without a line
terminator) as soon as the buffer exceeds 8192 bytes. -/
def phase1 : List (List Nat) → List Nat → Option (List Nat × List (List Nat))
  | [], buf => if hasSub [13, 10] buf then some (buf, []) else none
  | c :: rest, buf =>
    if hasSub [13, 10] buf then some (buf, c :: rest)
    else if c.isEmpty then none
    else if 8192 < (buf ++ c).length then some (buf ++ c, rest)
    else phase1 rest (buf ++ c)

/-- The CONNECT branch's second read loop: accumulate chunks until the buffer
contains `b"\r\n\r\n"` (end of the request headers), `none` if the stream
ends first.  This loop has no size bound. -/
def phase2 : List (List Nat) → List Nat → Option (List Nat × List (List Nat))
  | [], buf => if hasSub [13, 10, 13, 10] buf then some (buf, []) else none
  | c :: rest, buf =>
    if hasSub [13, 10, 13, 10] buf then some (buf, c :: rest)
    else if c.isEmpty then none
    else phase2 rest (buf ++ c)

/-- Parsing of the CONNECT target, from `handle_client`:
`host, port = target.rsplit(":", 1)` when a colon is present, with
`port = 443` when `int(port)` raises `ValueError`; `host = target,
port = 443` when no colon is present.  `rsplitColon` splits at the last
colon. -/
def rsplitColon (l : List Char) : List Char × List Char :=
  match l.reverse.span (fun c => c != ':') with
  | (portRev, rest) =>
    match rest with
    | ':' :: hostRev => (hostRev.reverse, portRev.reverse)
    | _ => (l, [])

def parseConnectTarget (t : List Char) : List Char × Int :=
  if t.contains ':' then
    match pyInt (rsplitColon t).2 with
    | some n => ((rsplitColon t).1, n)
    | none => ((rsplitColon t).1, 443)
  else (t, 443)

/-- The branch `handle_client` takes once the preamble `buf` has been read
(`rest` being the chunks not yet consumed).  The CONNECT test uppercases the
decoded first line; the word split reuses the decoded first line unchanged.
In the CONNECT case the remaining headers are read (`phase2`) and then
`handle_connect target_host target_port` is called — the buffered bytes
(`initial_data`) are *not* passed on. -/
def classifyBuf (buf : List Nat) (rest : List (List Nat)) : Classification :=
  if ("CONNECT ".data).isPrefixOf (pyUpper (decodeReplace (takeTo2 13 10 buf))) then
    match splitWs (decodeReplace (takeTo2 13 10 buf)) with
    | _ :: target :: _ =>
      match phase2 rest buf with
      | none => .closedNoBackend
      | some _ => .tunnel (parseConnectTarget target).1 (parseConnectTarget target).2
    | _ => .badRequest
  else .web buf

/-- `handle_client` up to the point where a backend is chosen: read the
preamble, take the first line, and classify. -/
def classify (chunks : List (List Nat)) : Classification :=
  match phase1 chunks [] with
  | none => .closedNoBackend
  | some (buf, rest) => classifyBuf buf rest

/-- What `handle_connect` writes to each side.  `toBackend` is everything
sent to the tunnel backend before relaying, `toClient` the reply bytes sent
to the client, `relayed` whether the bidirectional relay loop was entered. -/
structure TunnelOutcome where
  toBackend : List Nat
  toClient : List Nat
  relayed : Bool
deriving DecidableEq

/-- The CONNECT request `handle_connect` synthesises and sends to the tunnel
backend: `CONNECT host:port HTTP/1.1` with a matching `Host` header.  This is
freshly built from the parsed host and port; none of the client's buffered
bytes are included. -/
def connectRequestBytes (host : List Char) (port : Int) : List Nat :=
  ("CONNECT ".data ++ host ++ ':' :: renderInt port ++ " HTTP/1.1\r\nHost: ".data
      ++ host ++ ':' :: renderInt port ++ "\r\n\r\n".data).map Char.toNat

/-- `handle_connect`, modelling the socket world by two parameters:
`connectOk` is whether `socket.create_connection` to the tunnel backend
succeeds, and `resp` is the accumulated response the backend sends (the
bytes read by the response loop).  The backend's answer counts as success
when the bytes `b"200"` occur anywhere in its first response line. -/
def handle_connect (host : List Char) (port : Int) (connectOk : Bool)
    (resp : List Nat) : TunnelOutcome :=
  if connectOk then
    if hasSub (bytesOf "200") (takeTo2 13 10 resp) then
      { toBackend := connectRequestBytes host port,
        toClient := bytesOf "HTTP/1.1 200 Connection established\r\n\r\n",
        relayed := true }
    else
      { toBackend := connectRequestBytes host port, toClient := resp, relayed := false }
  else
    { toBackend := [], toClient := bytesOf "HTTP/1.1 502 Bad Gateway\r\n\r\n",
      relayed := false }

/-- `handle_http`: connect to the web backend, forward the already-buffered
bytes, then relay.  Same world parameters as `handle_connect`. -/
def handle_http (buffered : List Nat) (connectOk : Bool) : TunnelOutcome :=
  if connectOk then { toBackend := buffered, toClient := [], relayed := true }
  else { toBackend := [], toClient := bytesOf "HTTP/1.1 502 Bad Gateway\r\n\r\n",
         relayed := false }

/-- One readiness event inside the `relay` loop: a chunk became readable on
the client or on the backend socket. -/
inductive RelayEv where
  | fromClient (bs : List Nat)
  | fromBackend (bs : List Nat)

/-- The `relay` loop: every chunk read from one socket is written verbatim to
the other, until a zero-length read ends the loop.  Returns the bytes
delivered to the backend and to the client. -/
def relayDeliver : List RelayEv → List Nat × List Nat
  | [] => ([], [])
  | .fromClient bs :: rest =>
    if bs.isEmpty then ([], [])
    else (bs ++ (relayDeliver rest).1, (relayDeliver rest).2)
  | .fromBackend bs :: rest =>
    if bs.isEmpty then ([], [])
    else ((relayDeliver rest).1, bs ++ (relayDeliver rest).2)

/-! ## Relay lemmas and claims C1, C3, C10 -/

theorem isPrefixOf_cons_cons (a b : Char) (as bs : List Char) :
    List.isPrefixOf (a :: as) (b :: bs) = (a == b && List.isPrefixOf as bs) := rfl

theorem hasSub_pair_eq_false {a b : Nat} {l : List Nat} (h : ∀ x ∈ l, x ≠ a) :
    hasSub [a, b] l = false := by
  induction l with
  | nil => rfl
  | cons x xs ih =>
    have hx : x ≠ a := h x (by simp)
    simp only [hasSub, List.isPrefixOf, Bool.or_eq_false_iff]
    constructor
    · simp [bne, BEq.beq]
      intro hax
      exact absurd hax.symm hx
    · exact ih fun y hy => h y (by simp [hy])

theorem takeTo2_eq_self {a b : Nat} {l : List Nat} (h : hasSub [a, b] l = false) :
    takeTo2 a b l = l := by
  induction l with
  | nil => rfl
  | cons x xs ih =>
    simp only [hasSub, Bool.or_eq_false_iff] at h
    simp only [takeTo2, h.1, Bool.false_eq_true, if_false]
    rw [ih h.2]

/-- If the first read loop hands back a buffer that still has no line
terminator, the loop can only have exited through the `len > 8192` break. -/
theorem phase1_oversize {chunks : List (List Nat)} {buf0 buf : List Nat}
    {rest : List (List Nat)} (h : phase1 chunks buf0 = some (buf, rest))
    (hno : hasSub [13, 10] buf = false) : 8192 < buf.length := by
  induction chunks generalizing buf0 with
  | nil =>
    rw [phase1] at h
    by_cases hc : hasSub [13, 10] buf0 = true
    · rw [if_pos hc] at h
      cases h
      rw [hc] at hno
      cases hno
    · rw [if_neg hc] at h
      cases h
  | cons c cs ih =>
    rw [phase1] at h
    by_cases hc : hasSub [13, 10] buf0 = true
    · rw [if_pos hc] at h
      cases h
      rw [hc] at hno
      cases hno
    · rw [if_neg hc] at h
      by_cases he : c.isEmpty = true
      · rw [if_pos he] at h; cases h
      · rw [if_neg he] at h
        by_cases hl : 8192 < (buf0 ++ c).length
        · rw [if_pos hl] at h
          cases h
          exact hl
        · rw [if_neg hl] at h
          exact ih h

theorem phase1_cons_oversize {c : List Nat} {rest : List (List Nat)} {buf : List Nat}
    (h0 : hasSub [13, 10] buf = false) (h1 : c.isEmpty = false)
    (h2 : 8192 < (buf ++ c).length) :
    phase1 (c :: rest) buf = some (buf ++ c, rest) := by
  rw [phase1, if_neg (by rw [h0]; exact Bool.false_ne_true),
    if_neg (by rw [h1]; exact Bool.false_ne_true), if_pos h2]

/-- A buffer whose decoded first line does not start with the tunnel verb is
classified as a web request. -/
theorem classify_web_of {chunks : List (List Nat)} {buf : List Nat}
    {rest : List (List Nat)} (h : phase1 chunks [] = some (buf, rest))
    (hconn : ("CONNECT ".data).isPrefixOf
      (pyUpper (decodeReplace (takeTo2 13 10 buf))) = false) :
    classify chunks = .web buf := by
  rw [classify, h]
  show classifyBuf buf rest = .web buf
  rw [classifyBuf, if_neg (by rw [hconn]; exact Bool.false_ne_true)]

/-- C1 (amended).  When the classification preamble exceeds the maximum
preamble size (8192 bytes) without containing a line terminator, the relay
does not close the connection with an error: it stops reading, keeps the
oversized buffer, and classifies it as-is; in particular a buffer whose
decoded text does not start with the tunnel verb is handed in full to
`handle_http`, which opens a connection to the web backend. -/
theorem c1_oversized_preamble_forwarded :
    ∀ (chunks : List (List Nat)) (buf : List Nat) (rest : List (List Nat)),
      phase1 chunks [] = some (buf, rest) →
      hasSub [13, 10] buf = false →
      ("CONNECT ".data).isPrefixOf (pyUpper (decodeReplace (takeTo2 13 10 buf))) = false →
      8192 < buf.length ∧ classify chunks = .web buf :=
  fun _ _ _ h hno hconn => ⟨phase1_oversize h hno, classify_web_of h hconn⟩

/-- A connection whose single read delivers 8193 bytes of `A`, with no line
terminator anywhere. -/
def bigChunk : List Nat := List.replicate 8193 65

theorem bigChunk_no_crlf : hasSub [13, 10] bigChunk = false := by
  refine hasSub_pair_eq_false fun x hx => ?_
  rw [bigChunk] at hx
  have := List.eq_of_mem_replicate hx
  omega

theorem bigChunk_isEmpty : bigChunk.isEmpty = false := by
  rw [show bigChunk = 65 :: List.replicate 8192 65 from rfl]; rfl

theorem bigChunk_phase1 : phase1 [bigChunk] [] = some (bigChunk, []) := by
  have h := @phase1_cons_oversize bigChunk [] []
    rfl bigChunk_isEmpty
    (by rw [List.nil_append, bigChunk, List.length_replicate]; omega)
  rw [List.nil_append] at h
  exact h

theorem bigChunk_not_connect :
    ("CONNECT ".data).isPrefixOf
      (pyUpper (decodeReplace (takeTo2 13 10 bigChunk))) = false := by
  rw [takeTo2_eq_self bigChunk_no_crlf]
  rw [bigChunk, decodeReplace, List.map_replicate]
  rw [show (if (65 : Nat) < 128 then Char.ofNat 65 else Char.ofNat 0xFFFD) = 'A' from by decide]
  rw [pyUpper, List.map_replicate]
  rw [show Char.toUpper 'A' = 'A' from by decide]
  rw [show (8193 : Nat) = 8192 + 1 from rfl, List.replicate_succ]
  rw [show "CONNECT ".data = 'C' :: "ONNECT ".data from rfl]
  rw [isPrefixOf_cons_cons]
  rw [show ('C' == 'A') = false from rfl, Bool.false_and]

/-- C1 counterexample.  A connection that sends 8193 bytes of `A` (no line
terminator anywhere) exceeds the maximum preamble size, yet the relay does
not close the connection with an error: it classifies the oversized buffer
as a web request, i.e. `handle_http` is invoked, which opens a connection to
the web backend and forwards all 8193 bytes — contradicting the claim that
such a connection is closed with an error and no backend is ever opened. -/
theorem c1_counterexample :
    classify [bigChunk] = .web bigChunk ∧
    hasSub [13, 10] bigChunk = false ∧
    8192 < bigChunk.length ∧
    Classification.web bigChunk ≠ .closedNoBackend ∧
    Classification.web bigChunk ≠ .badRequest ∧
    (handle_http bigChunk true).toBackend = bigChunk := by
  exact ⟨classify_web_of bigChunk_phase1 bigChunk_not_connect, bigChunk_no_crlf,
    by rw [bigChunk, List.length_replicate]; omega,
    by simp, by simp, rfl⟩

/-- C1 witness: the amended statement applied to the 8193-byte connection. -/
theorem c1_witness : 8192 < bigChunk.length ∧ classify [bigChunk] = .web bigChunk :=
  c1_oversized_preamble_forwarded [bigChunk] bigChunk []
    bigChunk_phase1 bigChunk_no_crlf bigChunk_not_connect

/-- C10.  A CONNECT first line whose target has no colon-separated port, or
whose port suffix does not parse as an integer, is not rejected: the relay
proceeds to the tunnel path with the parsed host and the default port 443. -/
theorem c10_connect_default_port :
    ∀ (chunks : List (List Nat)) (buf : List Nat) (rest : List (List Nat))
      (verb target : List Char) (more : List (List Char))
      (buf2 : List Nat) (rest2 : List (List Nat)),
      phase1 chunks [] = some (buf, rest) →
      ("CONNECT ".data).isPrefixOf (pyUpper (decodeReplace (takeTo2 13 10 buf))) = true →
      splitWs (decodeReplace (takeTo2 13 10 buf)) = verb :: target :: more →
      phase2 rest buf = some (buf2, rest2) →
      (target.contains ':' = false ∨ pyInt (rsplitColon target).2 = none) →
      classify chunks =
        .tunnel (if target.contains ':' then (rsplitColon target).1 else target) 443 := by
  intro chunks buf rest verb target more buf2 rest2 h1 h2 h3 h4 h5
  rw [classify, h1]
  show classifyBuf buf rest = _
  rw [classifyBuf, if_pos h2, h3]
  show (match phase2 rest buf with
        | none => Classification.closedNoBackend
        | some _ =>
          Classification.tunnel (parseConnectTarget target).1 (parseConnectTarget target).2) = _
  rw [h4]
  show Classification.tunnel (parseConnectTarget target).1 (parseConnectTarget target).2 = _
  by_cases hc : target.contains ':' = true
  · rcases h5 with h5 | h5
    · rw [hc] at h5; cases h5
    · rw [parseConnectTarget, if_pos hc, h5, if_pos hc]
  · have hc' : target.contains ':' = false := by
      cases h : target.contains ':'
      · rfl
      · exact absurd h hc
    rw [parseConnectTarget, if_neg hc, if_neg hc]

/-- C10 witness: `CONNECT example.com HTTP/1.1` (no port at all) tunnels to
`example.com` on port 443. -/
theorem c10_witness :
    classify [bytesOf "CONNECT example.com HTTP/1.1\r\n\r\n"] =
      .tunnel ("example.com".data) 443 := by
  have h := c10_connect_default_port
    [bytesOf "CONNECT example.com HTTP/1.1\r\n\r\n"]
    (bytesOf "CONNECT example.com HTTP/1.1\r\n\r\n") []
    ("CONNECT".data) ("example.com".data) ["HTTP/1.1".data]
    (bytesOf "CONNECT example.com HTTP/1.1\r\n\r\n") []
    (by decide) (by decide) (by decide) (by decide) (Or.inl (by decide))
  rw [show ("example.com".data.contains ':') = false from by decide] at h
  simpa using h

/-- C3 (amended).  For a connection classified onto the tunnel path with a
parsed host and port, `handle_connect` opens the tunnel backend and sends it
a freshly synthesised CONNECT request rewritten to the requested host:port —
the buffered bytes already read from the client are discarded, not
forwarded — and, when the backend's response line contains `200`, replies to
the client with a success line and enters the relay loop, which copies every
subsequent chunk verbatim in each direction until a zero-length read. -/
theorem c3_tunnel_synthesised :
    ∀ (chunks : List (List Nat)) (host : List Char) (port : Int) (resp : List Nat),
      classify chunks = .tunnel host port →
      hasSub (bytesOf "200") (takeTo2 13 10 resp) = true →
      handle_connect host port true resp =
        { toBackend := connectRequestBytes host port,
          toClient := bytesOf "HTTP/1.1 200 Connection established\r\n\r\n",
          relayed := true } ∧
      (∀ (evs : List RelayEv) (bs : List Nat), bs ≠ [] →
        relayDeliver (RelayEv.fromClient bs :: evs) =
          (bs ++ (relayDeliver evs).1, (relayDeliver evs).2)) ∧
      (∀ (evs : List RelayEv) (bs : List Nat), bs ≠ [] →
        relayDeliver (RelayEv.fromBackend bs :: evs) =
          ((relayDeliver evs).1, bs ++ (relayDeliver evs).2)) := by
  intro chunks host port resp _hclass h200
  refine ⟨?_, ?_, ?_⟩
  · rw [handle_connect, if_pos rfl, if_pos h200]
  · intro evs bs hbs
    rw [relayDeliver, if_neg (by simp [hbs])]
  · intro evs bs hbs
    rw [relayDeliver, if_neg (by simp [hbs])]

/-- The preamble of a connection that pipelines extra bytes after the CONNECT
header block. -/
def c3chunk : List Nat := bytesOf "CONNECT example.com:443 HTTP/1.1\r\n\r\nEXTRA"

/-- C3 counterexample.  A client sends its CONNECT request with five extra
bytes `EXTRA` pipelined after the header block; the connection is classified
onto the tunnel path, the extra bytes are part of the buffered preamble, yet
nothing of them is ever forwarded to the tunnel backend: `handle_connect`
sends only the freshly synthesised CONNECT request.  This contradicts the
claim that the relay forwards the rewritten tunnel-establishment line
*together with the remaining buffered bytes already read from the client*. -/
theorem c3_counterexample :
    classify [c3chunk] = .tunnel ("example.com".data) 443 ∧
    hasSub (bytesOf "EXTRA") c3chunk = true ∧
    hasSub (bytesOf "EXTRA")
      ((handle_connect ("example.com".data) 443 true
        (bytesOf "HTTP/1.1 200 OK\r\n\r\n")).toBackend) = false := by
  exact ⟨by decide, by decide, by decide⟩

/-- C3 witness: the amended statement applied to a concrete tunnel
connection and backend response. -/
theorem c3_witness :
    handle_connect ("example.com".data) 443 true (bytesOf "HTTP/1.1 200 OK\r\n\r\n") =
      { toBackend := connectRequestBytes ("example.com".data) 443,
        toClient := bytesOf "HTTP/1.1 200 Connection established\r\n\r\n",
        relayed := true } ∧
    relayDeliver [RelayEv.fromClient [104, 105]] = ([104, 105], []) ∧
    relayDeliver [RelayEv.fromBackend [104]] = ([], [104]) := by
  have h := c3_tunnel_synthesised [c3chunk] ("example.com".data) 443
    (bytesOf "HTTP/1.1 200 OK\r\n\r\n") (by decide) (by decide)
  refine ⟨h.1, ?_, ?_⟩
  · rw [h.2.1 [] [104, 105] (by simp)]; rfl
  · rw [h.2.2 [] [104] (by simp)]; rfl

/-! ## Brute-force guard (app/services/security_service.py)

The database session is modelled as an explicit `GuardState` (pending rows
included: SQLAlchemy's autoflush makes a row added in the session visible to
the count query run in the same call).  `datetime.utcnow()` is passed in as
`now`, an integer count of minutes, so `timedelta(minutes = m)` is addition
of `m`. -/

def MAX_FAILED_ATTEMPTS : Nat := 5
def BLOCK_DURATION_MINUTES : Int := 30
def ATTEMPT_WINDOW_MINUTES : Int := 15
def PERMANENT_BLOCK_THRESHOLD : Nat := 3

/-- A row of the `failed_logins` table. -/
structure FailedLogin where
  ip : String
  username : Option String
  endpoint : String
  time : Int
deriving DecidableEq

/-- A row of the `security_events` audit table. -/
structure SecurityEvent where
  eventType : String
  ip : Option String
  username : Option String
  details : Option String
deriving DecidableEq

/-- A row of the `blocked_ips` table. -/
structure BlockedIP where
  ip : String
  reason : String
  failedAttempts : Nat
  blockedAt : Int
  blockedUntil : Option Int
  isPermanent : Bool
  unblockedAt : Option Int
  unblockedBy : Option String
  isActive : Bool
  notes : Option String
deriving DecidableEq

structure GuardState where
  attempts : List FailedLogin
  blocks : List BlockedIP
  events : List SecurityEvent
deriving DecidableEq

/-- `_log_event`: append a security event row. -/
def logEvent (st : GuardState) (eventType : String)
    (ip username details : Option String) : GuardState :=
  { st with events := st.events ++ [⟨eventType, ip, username, details⟩] }

/-- The count query of `record_failed_attempt`: failed attempts from this
address whose time is inside the recent window (`attempt_time >=
now - ATTEMPT_WINDOW_MINUTES`). -/
def recentFailedCount (st : GuardState) (now : Int) (ip : String) : Nat :=
  (st.attempts.filter
    (fun a => a.ip == ip && decide (now - ATTEMPT_WINDOW_MINUTES ≤ a.time))).length

/-- The `select ... where ip_address = ip and is_active` lookup
(`scalar_one_or_none`; under the one-active-block invariant the first match
is the only one). -/
def findFirstActive : List BlockedIP → String → Option BlockedIP
  | [], _ => none
  | b :: rest, ip =>
    if b.ip == ip && b.isActive then some b else findFirstActive rest ip

/-- An ORM update of the selected row: replace the first active block for
`ip` in the table, leaving every other row unchanged. -/
def replaceFirstActive : List BlockedIP → String → BlockedIP → List BlockedIP
  | [], _, _ => []
  | b :: rest, ip, b' =>
    if b.ip == ip && b.isActive then b' :: rest
    else b :: replaceFirstActive rest ip b'

/-- The active blocks stored for one address. -/
def activeBlocksFor (st : GuardState) (ip : String) : List BlockedIP :=
  st.blocks.filter (fun b => b.ip == ip && b.isActive)

/-- The in-place mutation `_block_ip` performs on an existing active block:
add the new count, refresh `blocked_at`, and either promote to permanent
(threshold reached: expiry cleared) or push the expiry out by the block
duration. -/
def extendBlock (existing : BlockedIP) (now : Int) (failed : Nat) : BlockedIP :=
  if MAX_FAILED_ATTEMPTS * PERMANENT_BLOCK_THRESHOLD ≤ existing.failedAttempts + failed then
    { existing with
      failedAttempts := existing.failedAttempts + failed
      blockedAt := now
      isPermanent := true
      blockedUntil := none
      reason := "Permanent block: repeated brute force attempts" }
  else
    { existing with
      failedAttempts := existing.failedAttempts + failed
      blockedAt := now
      blockedUntil := some (now + BLOCK_DURATION_MINUTES) }

/-- The fresh row `_block_ip` inserts when no active block exists. -/
def newBlock (ip : String) (now : Int) (failed : Nat) : BlockedIP :=
  { ip := ip
    reason := "Too many failed login attempts"
    failedAttempts := failed
    blockedAt := now
    blockedUntil := some (now + BLOCK_DURATION_MINUTES)
    isPermanent := false
    unblockedAt := none
    unblockedBy := none
    isActive := true
    notes := none }

/-- `_block_ip`: extend the existing active block for the address if there is
one, otherwise create a new one.  Returns the block and the new state. -/
def blockIp (st : GuardState) (now : Int) (ip : String) (failed : Nat) :
    BlockedIP × GuardState :=
  match findFirstActive st.blocks ip with
  | some existing =>
    (extendBlock existing now failed,
     logEvent { st with blocks := replaceFirstActive st.blocks ip (extendBlock existing now failed) }
       "ip_block_extended" (some ip) none none)
  | none =>
    (newBlock ip now failed,
     logEvent { st with blocks := st.blocks ++ [newBlock ip now failed] }
       "ip_blocked" (some ip) none none)

/-- The state after `record_failed_attempt` has inserted the new
`FailedLogin` row and logged the `login_failed` event. -/
def afterFailedInsert (st : GuardState) (now : Int) (ip : String)
    (u : Option String) (e : String) : GuardState :=
  logEvent { st with attempts := st.attempts ++ [⟨ip, u, e, now⟩] }
    "login_failed" (some ip) u (some ("Failed login attempt on " ++ e))

/-- `record_failed_attempt`: insert the attempt, count recent attempts from
the address (the new row included), and block when the count reaches the
threshold.  Returns the block (if one was created or extended) and the new
state. -/
def record_failed_attempt (st : GuardState) (now : Int) (ip : String)
    (u : Option String) (e : String) : Option BlockedIP × GuardState :=
  if MAX_FAILED_ATTEMPTS ≤ recentFailedCount (afterFailedInsert st now ip u e) now ip then
    ((blockIp (afterFailedInsert st now ip u e) now ip
        (recentFailedCount (afterFailedInsert st now ip u e) now ip)).1 |> some,
     (blockIp (afterFailedInsert st now ip u e) now ip
        (recentFailedCount (afterFailedInsert st now ip u e) now ip)).2)
  else (none, afterFailedInsert st now ip u e)

/-- The mutation `is_ip_blocked` performs on an expired temporary block. -/
def expireBlock (b : BlockedIP) (now : Int) : BlockedIP :=
  { b with
    isActive := false
    unblockedAt := some now
    notes := some "Auto-unblocked: temporary block expired" }

/-- `is_ip_blocked`: look up the active block for the address; a
non-permanent block past its expiry is lazily marked inactive and the
address reported as not blocked. -/
def is_ip_blocked (st : GuardState) (now : Int) (ip : String) :
    Bool × Option BlockedIP × GuardState :=
  match findFirstActive st.blocks ip with
  | none => (false, none, st)
  | some b =>
    match b.blockedUntil with
    | some u =>
      if b.isPermanent = false ∧ u < now then
        (false, none, { st with blocks := replaceFirstActive st.blocks ip (expireBlock b now) })
      else (true, some b, st)
    | none => (true, some b, st)

/-! ## Guard lemmas and claims C2, C7 -/

theorem findFirstActive_eq_head (bl : List BlockedIP) (ip : String) :
    findFirstActive bl ip = (bl.filter (fun b => b.ip == ip && b.isActive)).head? := by
  induction bl with
  | nil => rfl
  | cons b rest ih =>
    rw [List.filter_cons]
    by_cases h : (b.ip == ip && b.isActive) = true
    · rw [findFirstActive, if_pos h, if_pos h, List.head?_cons]
    · rw [findFirstActive, if_neg h, if_neg h, ih]

theorem filter_replaceFirstActive_pos {bl : List BlockedIP} {ip : String}
    {b' : BlockedIP} (hb' : (b'.ip == ip && b'.isActive) = true)
    {b : BlockedIP} {t : List BlockedIP}
    (h : bl.filter (fun x => x.ip == ip && x.isActive) = b :: t) :
    (replaceFirstActive bl ip b').filter (fun x => x.ip == ip && x.isActive) = b' :: t := by
  induction bl generalizing b t with
  | nil => simp at h
  | cons x rest ih =>
    rw [List.filter_cons] at h
    by_cases hx : (x.ip == ip && x.isActive) = true
    · rw [if_pos hx] at h
      cases h
      rw [replaceFirstActive, if_pos hx, List.filter_cons, if_pos hb']
    · rw [if_neg hx] at h
      rw [replaceFirstActive, if_neg hx, List.filter_cons, if_neg hx]
      exact ih h

theorem filter_replaceFirstActive_neg {bl : List BlockedIP} {ip : String}
    {b' : BlockedIP} (hb' : (b'.ip == ip && b'.isActive) = false)
    {b : BlockedIP} {t : List BlockedIP}
    (h : bl.filter (fun x => x.ip == ip && x.isActive) = b :: t) :
    (replaceFirstActive bl ip b').filter (fun x => x.ip == ip && x.isActive) = t := by
  induction bl generalizing b t with
  | nil => simp at h
  | cons x rest ih =>
    rw [List.filter_cons] at h
    by_cases hx : (x.ip == ip && x.isActive) = true
    · rw [if_pos hx] at h
      cases h
      rw [replaceFirstActive, if_pos hx, List.filter_cons,
        if_neg (by rw [hb']; exact Bool.false_ne_true)]
    · rw [if_neg hx] at h
      rw [replaceFirstActive, if_neg hx, List.filter_cons, if_neg hx]
      exact ih h

theorem filter_replaceFirstActive_other {bl : List BlockedIP} {ip : String}
    {b' : BlockedIP} (hb' : b'.ip = ip) {ip' : String} (hne : ip' ≠ ip) :
    (replaceFirstActive bl ip b').filter (fun x => x.ip == ip' && x.isActive) =
      bl.filter (fun x => x.ip == ip' && x.isActive) := by
  induction bl with
  | nil => rfl
  | cons x rest ih =>
    by_cases hx : (x.ip == ip && x.isActive) = true
    · have hxip : x.ip = ip := by
        have := (Bool.and_eq_true _ _).mp hx
        exact beq_iff_eq.mp this.1
      have hb'ne : (b'.ip == ip' && b'.isActive) = false := by
        have : (b'.ip == ip') = false := by
          rw [beq_eq_false_iff_ne, hb']
          exact fun hh => hne hh.symm
        rw [this, Bool.false_and]
      have hxne : (x.ip == ip' && x.isActive) = false := by
        have : (x.ip == ip') = false := by
          rw [beq_eq_false_iff_ne, hxip]
          exact fun hh => hne hh.symm
        rw [this, Bool.false_and]
      rw [replaceFirstActive, if_pos hx, List.filter_cons, List.filter_cons,
        if_neg (by rw [hb'ne]; exact Bool.false_ne_true),
        if_neg (by rw [hxne]; exact Bool.false_ne_true)]
    · rw [replaceFirstActive, if_neg hx, List.filter_cons, List.filter_cons]
      by_cases hx' : (x.ip == ip' && x.isActive) = true
      · rw [if_pos hx', if_pos hx', ih]
      · rw [if_neg hx', if_neg hx', ih]

theorem is_ip_blocked_fst_of_none {st : GuardState} {now : Int} {ip : String}
    (h : findFirstActive st.blocks ip = none) :
    (is_ip_blocked st now ip).1 = false := by
  simp only [is_ip_blocked, h]

/-- C7.  A stored active, non-permanent block whose expiry is in the past:
the next `is_ip_blocked` call answers "not blocked", lazily marks the block
inactive in the same call, and a subsequent read (the same query again)
reports no active block. -/
theorem c7_lazy_expiry :
    ∀ (st : GuardState) (now : Int) (ip : String) (b : BlockedIP) (u : Int),
      activeBlocksFor st ip = [b] →
      b.isPermanent = false →
      b.blockedUntil = some u →
      u < now →
      (is_ip_blocked st now ip).1 = false ∧
      (is_ip_blocked st now ip).2.1 = none ∧
      activeBlocksFor (is_ip_blocked st now ip).2.2 ip = [] ∧
      (is_ip_blocked (is_ip_blocked st now ip).2.2 now ip).1 = false := by
  intro st now ip b u hact hperm huntil hlt
  have hfind : findFirstActive st.blocks ip = some b := by
    rw [findFirstActive_eq_head]
    rw [show st.blocks.filter (fun x => x.ip == ip && x.isActive) = activeBlocksFor st ip from rfl]
    rw [hact]
    rfl
  have hres : is_ip_blocked st now ip =
      (false, none, { st with blocks := replaceFirstActive st.blocks ip (expireBlock b now) }) := by
    simp only [is_ip_blocked, hfind, huntil]
    rw [if_pos ⟨hperm, hlt⟩]
  have hexp : ((expireBlock b now).ip == ip && (expireBlock b now).isActive) = false := by
    simp [expireBlock]
  have hafter : activeBlocksFor (is_ip_blocked st now ip).2.2 ip = [] := by
    rw [hres]
    exact filter_replaceFirstActive_neg hexp hact
  refine ⟨by rw [hres], by rw [hres], hafter, ?_⟩
  refine is_ip_blocked_fst_of_none ?_
  rw [findFirstActive_eq_head]
  rw [show (is_ip_blocked st now ip).2.2.blocks.filter (fun x => x.ip == ip && x.isActive) =
    activeBlocksFor (is_ip_blocked st now ip).2.2 ip from rfl]
  rw [hafter]
  rfl

/-- A concrete expired temporary block, for the C7 witness. -/
def c7Block : BlockedIP :=
  { ip := "198.51.100.9"
    reason := "expired temp block"
    failedAttempts := 5
    blockedAt := 0
    blockedUntil := some 10
    isPermanent := false
    unblockedAt := none
    unblockedBy := none
    isActive := true
    notes := none }

def c7State : GuardState := { attempts := [], blocks := [c7Block], events := [] }

/-- C7 witness: the theorem applied to a block that expired at minute 10,
read at minute 11. -/
theorem c7_witness :
    (is_ip_blocked c7State 11 "198.51.100.9").1 = false ∧
    activeBlocksFor (is_ip_blocked c7State 11 "198.51.100.9").2.2 "198.51.100.9" = [] := by
  have h := c7_lazy_expiry c7State 11 "198.51.100.9" c7Block 10
    (by decide) rfl rfl (by decide)
  exact ⟨h.1, h.2.2.1⟩

theorem recentFailedCount_congr {st : GuardState} {now : Int} {ip : String}
    (hwin : ∀ a ∈ st.attempts, a.ip = ip → now - ATTEMPT_WINDOW_MINUTES ≤ a.time) :
    recentFailedCount st now ip = (st.attempts.filter (fun a => a.ip == ip)).length := by
  rw [recentFailedCount]
  congr 1
  refine List.filter_congr ?_
  intro a ha
  by_cases hip : a.ip = ip
  · rw [beq_iff_eq.mpr hip, Bool.true_and]
    exact decide_eq_true (hwin a ha hip)
  · rw [beq_eq_false_iff_ne.mpr hip, Bool.false_and]

/-- C2.  Starting from a state with no active block for the address and one
failure short of the threshold inside the window, the call that reaches the
threshold creates exactly one new active block, and the next call extends
that same block (count incremented, expiry pushed) instead of creating a
second one; at most one active block per address holds throughout. -/
theorem c2_single_active_block :
    ∀ (st : GuardState) (now now2 : Int) (ip : String)
      (u1 u2 : Option String) (e1 e2 : String),
      (∀ ip', (activeBlocksFor st ip').length ≤ 1) →
      activeBlocksFor st ip = [] →
      (st.attempts.filter (fun a => a.ip == ip)).length + 1 = MAX_FAILED_ATTEMPTS →
      (∀ a ∈ st.attempts, a.ip = ip → now - ATTEMPT_WINDOW_MINUTES ≤ a.time) →
      (∀ a ∈ st.attempts, a.ip = ip → now2 - ATTEMPT_WINDOW_MINUTES ≤ a.time) →
      now ≤ now2 →
      now2 ≤ now + ATTEMPT_WINDOW_MINUTES →
      ∃ b1 b2,
        (record_failed_attempt st now ip u1 e1).1 = some b1 ∧
        activeBlocksFor (record_failed_attempt st now ip u1 e1).2 ip = [b1] ∧
        b1.isActive = true ∧
        b1.isPermanent = false ∧
        b1.failedAttempts = MAX_FAILED_ATTEMPTS ∧
        b1.blockedUntil = some (now + BLOCK_DURATION_MINUTES) ∧
        (record_failed_attempt (record_failed_attempt st now ip u1 e1).2 now2 ip u2 e2).1
          = some b2 ∧
        activeBlocksFor
          (record_failed_attempt (record_failed_attempt st now ip u1 e1).2 now2 ip u2 e2).2 ip
          = [b2] ∧
        b2.isActive = true ∧
        b2.failedAttempts = b1.failedAttempts + (MAX_FAILED_ATTEMPTS + 1) ∧
        b2.blockedUntil = some (now2 + BLOCK_DURATION_MINUTES) ∧
        (∀ ip',
          (activeBlocksFor
            (record_failed_attempt (record_failed_attempt st now ip u1 e1).2 now2 ip u2 e2).2
            ip').length ≤ 1) := by
  intro st now now2 ip u1 u2 e1 e2 hInv hact0 hcount hw1 hw2 hle hwin12
  have hA_blocks : (afterFailedInsert st now ip u1 e1).blocks = st.blocks := rfl
  have hA_att : (afterFailedInsert st now ip u1 e1).attempts
      = st.attempts ++ [⟨ip, u1, e1, now⟩] := rfl
  -- the count seen by the first call
  have hpred1 : ((⟨ip, u1, e1, now⟩ : FailedLogin).ip == ip
      && decide (now - ATTEMPT_WINDOW_MINUTES ≤ (⟨ip, u1, e1, now⟩ : FailedLogin).time)) = true := by
    show (ip == ip && decide (now - ATTEMPT_WINDOW_MINUTES ≤ now)) = true
    rw [beq_self_eq_true, Bool.true_and, decide_eq_true_eq, ATTEMPT_WINDOW_MINUTES]
    omega
  have hcnt1 : recentFailedCount (afterFailedInsert st now ip u1 e1) now ip
      = MAX_FAILED_ATTEMPTS := by
    rw [recentFailedCount, hA_att, List.filter_append, List.length_append]
    have h1 : st.attempts.filter
        (fun a => a.ip == ip && decide (now - ATTEMPT_WINDOW_MINUTES ≤ a.time))
        = st.attempts.filter (fun a => a.ip == ip) := by
      refine List.filter_congr ?_
      intro a ha
      by_cases hip : a.ip = ip
      · rw [beq_iff_eq.mpr hip, Bool.true_and]
        exact decide_eq_true (hw1 a ha hip)
      · rw [beq_eq_false_iff_ne.mpr hip, Bool.false_and]
    rw [h1, List.filter_cons, if_pos hpred1, List.filter_nil]
    simp only [List.length_cons, List.length_nil, Nat.zero_add]
    exact hcount
  have hfind0 : findFirstActive (afterFailedInsert st now ip u1 e1).blocks ip = none := by
    rw [hA_blocks, findFirstActive_eq_head,
      show st.blocks.filter (fun x => x.ip == ip && x.isActive) = activeBlocksFor st ip from rfl,
      hact0]
    rfl
  have hrec1 : record_failed_attempt st now ip u1 e1 =
      (some (newBlock ip now MAX_FAILED_ATTEMPTS),
       logEvent { (afterFailedInsert st now ip u1 e1) with
          blocks := st.blocks ++ [newBlock ip now MAX_FAILED_ATTEMPTS] }
         "ip_blocked" (some ip) none none) := by
    rw [record_failed_attempt, if_pos (le_of_eq hcnt1.symm), hcnt1]
    simp only [blockIp, hfind0]
    rw [hA_blocks]
  have hS1blocks : (record_failed_attempt st now ip u1 e1).2.blocks
      = st.blocks ++ [newBlock ip now MAX_FAILED_ATTEMPTS] := by
    rw [hrec1]
    rfl
  have hS1att : (record_failed_attempt st now ip u1 e1).2.attempts
      = st.attempts ++ [⟨ip, u1, e1, now⟩] := by
    rw [hrec1]
    rfl
  have hb1pred : ((newBlock ip now MAX_FAILED_ATTEMPTS).ip == ip
      && (newBlock ip now MAX_FAILED_ATTEMPTS).isActive) = true := by
    show (ip == ip && true) = true
    rw [beq_self_eq_true]
    rfl
  have hact1 : activeBlocksFor (record_failed_attempt st now ip u1 e1).2 ip
      = [newBlock ip now MAX_FAILED_ATTEMPTS] := by
    rw [activeBlocksFor, hS1blocks, List.filter_append,
      show st.blocks.filter (fun x => x.ip == ip && x.isActive) = activeBlocksFor st ip from rfl,
      hact0, List.nil_append, List.filter_cons, if_pos hb1pred]
    rfl
  -- the count seen by the second call
  have hA2_blocks :
      (afterFailedInsert (record_failed_attempt st now ip u1 e1).2 now2 ip u2 e2).blocks
      = (record_failed_attempt st now ip u1 e1).2.blocks := rfl
  have hA2_att :
      (afterFailedInsert (record_failed_attempt st now ip u1 e1).2 now2 ip u2 e2).attempts
      = (record_failed_attempt st now ip u1 e1).2.attempts ++ [⟨ip, u2, e2, now2⟩] := rfl
  have hcnt2 : recentFailedCount
      (afterFailedInsert (record_failed_attempt st now ip u1 e1).2 now2 ip u2 e2) now2 ip
      = MAX_FAILED_ATTEMPTS + 1 := by
    rw [recentFailedCount, hA2_att, hS1att, List.filter_append, List.filter_append,
      List.length_append, List.length_append]
    have h1 : st.attempts.filter
        (fun a => a.ip == ip && decide (now2 - ATTEMPT_WINDOW_MINUTES ≤ a.time))
        = st.attempts.filter (fun a => a.ip == ip) := by
      refine List.filter_congr ?_
      intro a ha
      by_cases hip : a.ip = ip
      · rw [beq_iff_eq.mpr hip, Bool.true_and]
        exact decide_eq_true (hw2 a ha hip)
      · rw [beq_eq_false_iff_ne.mpr hip, Bool.false_and]
    have h2 : ((⟨ip, u1, e1, now⟩ : FailedLogin).ip == ip
        && decide (now2 - ATTEMPT_WINDOW_MINUTES ≤ (⟨ip, u1, e1, now⟩ : FailedLogin).time))
        = true := by
      show (ip == ip && decide (now2 - ATTEMPT_WINDOW_MINUTES ≤ now)) = true
      rw [beq_self_eq_true, Bool.true_and, decide_eq_true_eq, ATTEMPT_WINDOW_MINUTES]
      rw [ATTEMPT_WINDOW_MINUTES] at hwin12
      omega
    have h3 : ((⟨ip, u2, e2, now2⟩ : FailedLogin).ip == ip
        && decide (now2 - ATTEMPT_WINDOW_MINUTES ≤ (⟨ip, u2, e2, now2⟩ : FailedLogin).time))
        = true := by
      show (ip == ip && decide (now2 - ATTEMPT_WINDOW_MINUTES ≤ now2)) = true
      rw [beq_self_eq_true, Bool.true_and, decide_eq_true_eq, ATTEMPT_WINDOW_MINUTES]
      omega
    rw [h1, List.filter_cons, if_pos h2, List.filter_nil, List.filter_cons, if_pos h3,
      List.filter_nil]
    simp only [List.length_cons, List.length_nil, Nat.zero_add]
    omega
  have hfind1 : findFirstActive
      (afterFailedInsert (record_failed_attempt st now ip u1 e1).2 now2 ip u2 e2).blocks ip
      = some (newBlock ip now MAX_FAILED_ATTEMPTS) := by
    rw [hA2_blocks, findFirstActive_eq_head,
      show (record_failed_attempt st now ip u1 e1).2.blocks.filter
        (fun x => x.ip == ip && x.isActive)
        = activeBlocksFor (record_failed_attempt st now ip u1 e1).2 ip from rfl,
      hact1]
    rfl
  have hext : extendBlock (newBlock ip now MAX_FAILED_ATTEMPTS) now2 (MAX_FAILED_ATTEMPTS + 1)
      = { newBlock ip now MAX_FAILED_ATTEMPTS with
          failedAttempts := MAX_FAILED_ATTEMPTS + (MAX_FAILED_ATTEMPTS + 1)
          blockedAt := now2
          blockedUntil := some (now2 + BLOCK_DURATION_MINUTES) } := by
    rw [extendBlock, if_neg ?hlt]
    case hlt =>
      show ¬(MAX_FAILED_ATTEMPTS * PERMANENT_BLOCK_THRESHOLD
        ≤ MAX_FAILED_ATTEMPTS + (MAX_FAILED_ATTEMPTS + 1))
      rw [MAX_FAILED_ATTEMPTS, PERMANENT_BLOCK_THRESHOLD]
      omega
    rfl
  have hrec2 : record_failed_attempt (record_failed_attempt st now ip u1 e1).2 now2 ip u2 e2 =
      (some (extendBlock (newBlock ip now MAX_FAILED_ATTEMPTS) now2 (MAX_FAILED_ATTEMPTS + 1)),
       logEvent { (afterFailedInsert (record_failed_attempt st now ip u1 e1).2 now2 ip u2 e2) with
          blocks := replaceFirstActive (record_failed_attempt st now ip u1 e1).2.blocks ip
            (extendBlock (newBlock ip now MAX_FAILED_ATTEMPTS) now2 (MAX_FAILED_ATTEMPTS + 1)) }
         "ip_block_extended" (some ip) none none) := by
    rw [record_failed_attempt, if_pos (by rw [hcnt2]; exact Nat.le_succ _), hcnt2]
    simp only [blockIp, hfind1]
    rw [hA2_blocks]
  have hb2pred :
      ((extendBlock (newBlock ip now MAX_FAILED_ATTEMPTS) now2 (MAX_FAILED_ATTEMPTS + 1)).ip == ip
      && (extendBlock (newBlock ip now MAX_FAILED_ATTEMPTS) now2
          (MAX_FAILED_ATTEMPTS + 1)).isActive) = true := by
    rw [hext]
    show (ip == ip && true) = true
    rw [beq_self_eq_true]
    rfl
  have hact2 : activeBlocksFor
      (record_failed_attempt (record_failed_attempt st now ip u1 e1).2 now2 ip u2 e2).2 ip
      = [extendBlock (newBlock ip now MAX_FAILED_ATTEMPTS) now2 (MAX_FAILED_ATTEMPTS + 1)] := by
    rw [activeBlocksFor, show (record_failed_attempt (record_failed_attempt st now ip u1 e1).2
        now2 ip u2 e2).2.blocks
      = replaceFirstActive (record_failed_attempt st now ip u1 e1).2.blocks ip
        (extendBlock (newBlock ip now MAX_FAILED_ATTEMPTS) now2 (MAX_FAILED_ATTEMPTS + 1))
      from by rw [hrec2]; rfl]
    exact filter_replaceFirstActive_pos hb2pred hact1
  refine ⟨newBlock ip now MAX_FAILED_ATTEMPTS,
    extendBlock (newBlock ip now MAX_FAILED_ATTEMPTS) now2 (MAX_FAILED_ATTEMPTS + 1),
    by rw [hrec1], hact1, rfl, rfl, rfl, rfl,
    by rw [hrec2], hact2, by rw [hext]; rfl, by rw [hext]; rfl,
    by rw [hext], ?_⟩
  intro ip'
  by_cases hip' : ip' = ip
  · rw [hip', hact2]
    exact Nat.le_refl 1
  · have hother : activeBlocksFor
        (record_failed_attempt (record_failed_attempt st now ip u1 e1).2 now2 ip u2 e2).2 ip'
        = activeBlocksFor st ip' := by
      rw [activeBlocksFor, show (record_failed_attempt (record_failed_attempt st now ip u1 e1).2
          now2 ip u2 e2).2.blocks
        = replaceFirstActive (record_failed_attempt st now ip u1 e1).2.blocks ip
          (extendBlock (newBlock ip now MAX_FAILED_ATTEMPTS) now2 (MAX_FAILED_ATTEMPTS + 1))
        from by rw [hrec2]; rfl]
      rw [filter_replaceFirstActive_other (by rw [hext]; rfl) hip']
      rw [hS1blocks, List.filter_append]
      rw [List.filter_cons, if_neg ?hb1]
      case hb1 =>
        show ¬((ip == ip' && true) = true)
        rw [Bool.and_true]
        intro hh
        exact hip' (beq_iff_eq.mp hh).symm
      rw [List.filter_nil, List.append_nil]
      rfl
    rw [hother]
    exact hInv ip'

def c2Attempt : FailedLogin :=
  { ip := "203.0.113.5", username := none, endpoint := "/api/auth/login", time := 0 }

def c2State : GuardState :=
  { attempts := [c2Attempt, c2Attempt, c2Attempt, c2Attempt], blocks := [], events := [] }

/-- C2 witness: four failures already inside the window, then the
threshold-reaching call at minute 0 and a further call at minute 1. -/
theorem c2_witness :
    ∃ b1 b2,
      (record_failed_attempt c2State 0 "203.0.113.5" none "/api/auth/login").1 = some b1 ∧
      activeBlocksFor
        (record_failed_attempt c2State 0 "203.0.113.5" none "/api/auth/login").2 "203.0.113.5"
        = [b1] ∧
      b1.isActive = true ∧
      b1.isPermanent = false ∧
      b1.failedAttempts = MAX_FAILED_ATTEMPTS ∧
      b1.blockedUntil = some (0 + BLOCK_DURATION_MINUTES) ∧
      (record_failed_attempt
        (record_failed_attempt c2State 0 "203.0.113.5" none "/api/auth/login").2
        1 "203.0.113.5" none "/api/auth/login").1 = some b2 ∧
      activeBlocksFor
        (record_failed_attempt
          (record_failed_attempt c2State 0 "203.0.113.5" none "/api/auth/login").2
          1 "203.0.113.5" none "/api/auth/login").2 "203.0.113.5" = [b2] ∧
      b2.isActive = true ∧
      b2.failedAttempts = b1.failedAttempts + (MAX_FAILED_ATTEMPTS + 1) ∧
      b2.blockedUntil = some (1 + BLOCK_DURATION_MINUTES) ∧
      (∀ ip',
        (activeBlocksFor
          (record_failed_attempt
            (record_failed_attempt c2State 0 "203.0.113.5" none "/api/auth/login").2
            1 "203.0.113.5" none "/api/auth/login").2 ip').length ≤ 1) :=
  c2_single_active_block c2State 0 1 "203.0.113.5" none none
    "/api/auth/login" "/api/auth/login"
    (fun _ => Nat.zero_le 1) (by decide) (by decide) (by decide) (by decide)
    (by decide) (by decide)

/-! ## Access-list builder and firewall sync (app/services/proxy_manager.py)

`generate_config` is pure text generation; it is modelled as the list of
lines of the produced 3proxy configuration.  `get_configured_domain` /
`get_configured_server_ip` read system settings from disk; they are passed
in as parameters (`none` models the lookup raising).  The iptables world is
modelled explicitly: the PROXYGATE chain is a list of rules, and an oracle
`ok : Nat → Bool` says whether the i-th checked (`check=True`) iptables
command succeeds; a failing checked command raises, which the enclosing
`try`/`except` of `sync_iptables_whitelist` catches and logs
(`swallowed := true`) without re-raising. -/

structure ProxyDomain where
  domain : String
  include_subdomains : Bool
deriving DecidableEq

structure ProxyClient where
  username : String
  password : String
  domains : List ProxyDomain
  is_active : Bool
  allowed_ips : List String
deriving DecidableEq

/-- The per-domain expansion used throughout `generate_config`: the domain
itself plus `*.domain` when subdomains are included. -/
def expandDomains (domains : List ProxyDomain) : List String :=
  domains.flatMap (fun d =>
    d.domain :: (if d.include_subdomains then ["*." ++ d.domain] else []))

/-- Python's first-occurrence dedup (`seen` set plus ordered list). -/
def seenDedup (seen : List String) : List String → List String
  | [] => []
  | d :: rest =>
    if seen.contains d then seenDedup seen rest
    else d :: seenDedup (d :: seen) rest

def joinComma (l : List String) : String := String.intercalate "," l

/-- The fixed header of the generated 3proxy configuration. -/
def configHeaderLines : List String :=
  ["daemon",
   "# ProxyGate 3proxy configuration",
   "# Auto-generated - DO NOT EDIT MANUALLY",
   "",
   "nserver 1.1.1.1",
   "nserver 8.8.8.8",
   "nscache 65536",
   "timeouts 10 10 120 300 600 1800 5 60",
   "",
   "maxconn 500",
   "stacksize 262144",
   "",
   "log /var/log/3proxy/3proxy.log D",
   "logformat \"L%d-%m-%Y %H:%M:%S %U %C:%c %R:%r %O %I %T\"",
   "rotate 30",
   "",
   "auth iponly strong",
   "users /etc/3proxy/passwd",
   "",
   "# === Per-client ACL ==="]

/-- The domains every active client contributes to the TLS-proxy passthrough
rule (wildcard expansion included), plus the server's own domain. -/
def allDomainsExpanded (serverDomain : Option String) (clients : List ProxyClient) :
    List String :=
  (clients.flatMap fun c =>
    if c.is_active && !c.domains.isEmpty then expandDomains c.domains else []) ++
  (match serverDomain with
   | some sd => if sd ≠ "" ∧ sd ≠ "localhost" then [sd, "*." ++ sd] else []
   | none => [])

/-- The passthrough block: connections from 127.0.0.1 (the TLS relay) are
allowed without authentication, restricted to the union of all clients'
domains. -/
def passthroughLines (serverDomain : Option String) (clients : List ProxyClient) :
    List String :=
  match seenDedup [] (allDomainsExpanded serverDomain clients) with
  | [] => []
  | uds =>
    ["",
     "# TLS proxy passthrough — IP filtering done by iptables on ports 443/8080",
     "allow * 127.0.0.1 " ++ joinComma uds ++ " * *"]

/-- The per-client block: IP-keyed allow rules (no authentication, restricted
to the client's domains) followed by the username-keyed allow rule
(authentication required, restricted to the client's domains).  An inactive
client, or an active client with no domains, contributes nothing. -/
def clientLines (c : ProxyClient) : List String :=
  if c.is_active then
    match expandDomains c.domains with
    | [] => []
    | expanded =>
      (c.allowed_ips.flatMap fun ip =>
        ["",
         "# IP whitelist for " ++ c.username,
         "allow * " ++ ip ++ " " ++ joinComma expanded ++ " * *"]) ++
      ["",
       "# " ++ c.username,
       "allow " ++ c.username ++ " * " ++ joinComma expanded ++ " * *"]
  else []

def configFooterLines : List String :=
  ["",
   "# === Deny all other ===",
   "deny *",
   "",
   "# === Proxy servers ===",
   "proxy -p3128 -a -n",
   "socks -p1080 -a -n"]

/-- `generate_config`, as the list of lines of the produced text. -/
def generate_config (serverDomain : Option String) (clients : List ProxyClient) :
    List String :=
  configHeaderLines ++ passthroughLines serverDomain clients ++
    clients.flatMap clientLines ++ configFooterLines

/-- `generate_passwd`: one `username:CL:password` line per active client. -/
def generate_passwd (clients : List ProxyClient) : List String :=
  clients.flatMap fun c =>
    if c.is_active then [c.username ++ ":CL:" ++ c.password] else []

/-- One rule of the PROXYGATE iptables chain. -/
inductive IptRule where
  | accept (src : String)
  | drop
deriving DecidableEq

/-- The iptables state touched by the sync: whether the PROXYGATE chain
exists, its rules in order, and the proxy ports whose INPUT jump to the
chain is installed. -/
structure IptState where
  chainExists : Bool
  chain : List IptRule
  inputJumps : List String
deriving DecidableEq

/-- Result of one `sync_iptables_whitelist` run: the final iptables state
and whether an iptables failure was caught (and only logged) by the outer
`except` handler.  The function itself always returns normally. -/
structure SyncOutcome where
  st : IptState
  swallowed : Bool
deriving DecidableEq

def stripStr (s : String) : String := String.mk (stripWs s.data)

/-- The trailing loop of the sync: for each proxy port, check whether the
INPUT jump into the chain exists (`iptables -C`, modelled by the real state)
and insert it when missing (`iptables -I`, checked).  The final
`iptables-save` runs unchecked. -/
def attachPorts (ok : Nat → Bool) (i : Nat) : List String → IptState → SyncOutcome
  | [], st => ⟨st, false⟩
  | p :: rest, st =>
    if st.inputJumps.contains p then attachPorts ok i rest st
    else if ok i then
      attachPorts ok (i + 1) rest { st with inputJumps := p :: st.inputJumps }
    else ⟨st, true⟩

/-- Append the trailing DROP (checked) and attach the INPUT jumps. -/
def finishSync (ok : Nat → Bool) (i : Nat) (st : IptState) : SyncOutcome :=
  if ok i then
    attachPorts ok (i + 1) ["443", "2053", "8080", "3128", "1080"]
      { st with chain := st.chain ++ [.drop] }
  else ⟨st, true⟩

/-- The whitelist loop: each address is stripped, skipped when empty or the
loopback address, and otherwise appended as an ACCEPT (checked command). -/
def addIps (ok : Nat → Bool) (i : Nat) : List String → IptState → SyncOutcome
  | [], st => finishSync ok i st
  | ip :: rest, st =>
    if stripStr ip ≠ "" ∧ stripStr ip ≠ "127.0.0.1" then
      if ok i then
        addIps ok (i + 1) rest { st with chain := st.chain ++ [.accept (stripStr ip)] }
      else ⟨st, true⟩
    else addIps ok i rest st

/-- `sync_iptables_whitelist`.  In order: ensure the chain exists (`-N`,
unchecked), flush it (`-F`, checked), accept loopback (checked), try to
accept the server's own address (`get_configured_server_ip` modelled by the
`serverIp` parameter, `none` = lookup raised; a failure of this one command
is swallowed by the inner `except` and the sync continues), then the sorted
whitelisted addresses, the trailing DROP, and the INPUT jumps.  Any other
checked command failing aborts the sync; the outer `except` catches it and
the function still returns normally (`swallowed = true`). -/
def sync_iptables_whitelist (ok : Nat → Bool) (serverIp : Option String)
    (allowed_ips : List String) (st0 : IptState) : SyncOutcome :=
  let st1 : IptState := { st0 with chainExists := true }
  if ok 0 then
    let st2 : IptState := { st1 with chain := [] }
    if ok 1 then
      let st3 : IptState := { st2 with chain := st2.chain ++ [.accept "127.0.0.1"] }
      match serverIp with
      | some s =>
        if s ≠ "" ∧ s ≠ "127.0.0.1" then
          if ok 2 then
            addIps ok 3 (sortStrs (allowed_ips.dedup))
              { st3 with chain := st3.chain ++ [.accept s] }
          else addIps ok 3 (sortStrs (allowed_ips.dedup)) st3
        else addIps ok 2 (sortStrs (allowed_ips.dedup)) st3
      | none => addIps ok 2 (sortStrs (allowed_ips.dedup)) st3
    else ⟨st2, true⟩
  else ⟨st1, true⟩

/-- Everything `apply_changes` produces: the configuration text written to
disk, the passwd file, the restart result, and the firewall sync outcome. -/
structure ApplyOutcome where
  configText : List String
  passwdText : List String
  restartOk : Bool
  sync : SyncOutcome
deriving DecidableEq

/-- `apply_changes`: write the configuration files, restart 3proxy, sync the
iptables whitelist with the union of the active clients' allowed addresses,
and return the restart result.  The sync's own failures never propagate. -/
def apply_changes (ok : Nat → Bool) (restartOk : Bool)
    (serverDomain serverIp : Option String) (clients : List ProxyClient)
    (st0 : IptState) : Bool × ApplyOutcome :=
  (restartOk,
   { configText := generate_config serverDomain clients
     passwdText := generate_passwd clients
     restartOk := restartOk
     sync := sync_iptables_whitelist ok serverIp
       ((clients.filter (fun c => c.is_active)).flatMap (fun c => c.allowed_ips)) st0 })

/-! ## Builder / firewall claims C4, C5, C6 -/

theorem attachPorts_allOk :
    ∀ (ports : List String) (i : Nat) (st : IptState),
      ∃ j, attachPorts (fun _ => true) i ports st =
        ⟨{ chainExists := st.chainExists, chain := st.chain, inputJumps := j }, false⟩ := by
  intro ports
  induction ports with
  | nil => intro i st; exact ⟨st.inputJumps, rfl⟩
  | cons p rest ih =>
    intro i st
    rw [attachPorts]
    by_cases hp : st.inputJumps.contains p = true
    · rw [if_pos hp]
      exact ih i st
    · rw [if_neg hp, if_pos rfl]
      exact ih (i + 1) { st with inputJumps := p :: st.inputJumps }

theorem finishSync_allOk (i : Nat) (st : IptState) :
    ∃ j, finishSync (fun _ => true) i st =
      ⟨{ chainExists := st.chainExists, chain := st.chain ++ [.drop], inputJumps := j }, false⟩ := by
  rw [finishSync, if_pos rfl]
  exact attachPorts_allOk _ _ _

theorem addIps_allOk :
    ∀ (l : List String) (i : Nat) (st : IptState),
      (∀ ip ∈ l, stripStr ip = ip ∧ ip ≠ "" ∧ ip ≠ "127.0.0.1") →
      ∃ j, addIps (fun _ => true) i l st =
        ⟨{ chainExists := st.chainExists,
           chain := st.chain ++ l.map (fun ip => .accept ip) ++ [.drop],
           inputJumps := j }, false⟩ := by
  intro l
  induction l with
  | nil =>
    intro i st _
    obtain ⟨j, hj⟩ := finishSync_allOk i st
    refine ⟨j, ?_⟩
    rw [addIps, hj]
    simp
  | cons ip rest ih =>
    intro i st hcl
    obtain ⟨hstrip, hne, hlo⟩ := hcl ip (by simp)
    rw [addIps, if_pos ⟨by rw [hstrip]; exact hne, by rw [hstrip]; exact hlo⟩, if_pos rfl,
      hstrip]
    obtain ⟨j, hj⟩ := ih (i + 1) { st with chain := st.chain ++ [.accept ip] }
      (fun x hx => hcl x (by simp [hx]))
    refine ⟨j, ?_⟩
    rw [hj]
    simp [List.append_assoc]

/-- C5.  With a resolvable non-loopback server address and every iptables
command succeeding, the PROXYGATE chain after a sync contains exactly: an
accept for loopback, an accept for the server's own address, an accept for
each whitelisted address (sorted), and a trailing drop — independent of
whatever the chain contained before (flush-then-rebuild, not a diff). -/
theorem c5_firewall_chain_exact :
    ∀ (serverIp : Option String) (s : String) (ips : List String) (st0 : IptState),
      serverIp = some s → s ≠ "" → s ≠ "127.0.0.1" →
      (∀ ip ∈ ips, stripStr ip = ip ∧ ip ≠ "" ∧ ip ≠ "127.0.0.1") →
      (sync_iptables_whitelist (fun _ => true) serverIp ips st0).st.chain =
        IptRule.accept "127.0.0.1" :: IptRule.accept s ::
          ((sortStrs ips.dedup).map (fun ip => .accept ip) ++ [.drop]) ∧
      (sync_iptables_whitelist (fun _ => true) serverIp ips st0).swallowed = false ∧
      (∀ x, IptRule.accept x ∈ (sync_iptables_whitelist (fun _ => true) serverIp ips st0).st.chain
        ↔ (x = "127.0.0.1" ∨ x = s ∨ x ∈ ips)) := by
  intro serverIp s ips st0 hsome hs1 hs2 hips
  have hmem : ∀ y, y ∈ sortStrs ips.dedup ↔ y ∈ ips := by
    intro y
    rw [sortStrs, List.Perm.mem_iff (List.perm_insertionSort _ _), List.mem_dedup]
  have hips' : ∀ ip ∈ sortStrs ips.dedup, stripStr ip = ip ∧ ip ≠ "" ∧ ip ≠ "127.0.0.1" :=
    fun ip hip => hips ip ((hmem ip).mp hip)
  obtain ⟨j, hj⟩ := addIps_allOk (sortStrs ips.dedup) 3
    { chainExists := true, chain := [.accept "127.0.0.1", .accept s], inputJumps := st0.inputJumps }
    hips'
  have hrun : sync_iptables_whitelist (fun _ => true) serverIp ips st0 =
      ⟨{ chainExists := true,
         chain := [.accept "127.0.0.1", .accept s]
           ++ (sortStrs ips.dedup).map (fun ip => .accept ip) ++ [.drop],
         inputJumps := j }, false⟩ := by
    rw [sync_iptables_whitelist]
    show (if (fun _ => true) 0 = true then _ else _) = _
    rw [if_pos rfl]
    show (if (fun _ => true) 1 = true then _ else _) = _
    rw [if_pos rfl, hsome]
    show (if s ≠ "" ∧ s ≠ "127.0.0.1" then _ else _) = _
    rw [if_pos ⟨hs1, hs2⟩]
    show (if (fun _ => true) 2 = true then _ else _) = _
    rw [if_pos rfl]
    show addIps (fun _ => true) 3 (sortStrs ips.dedup)
      { chainExists := true, chain := [.accept "127.0.0.1", .accept s],
        inputJumps := st0.inputJumps } = _
    rw [hj]
  refine ⟨by rw [hrun]; simp, by rw [hrun], ?_⟩
  intro x
  rw [hrun]
  simp [hmem]

/-- C5 witness: syncing with addresses {A, B} and then re-syncing with
{B, C} from the resulting state yields a chain accepting exactly loopback,
the server's own address, B and C, with A gone and a trailing drop. -/
theorem c5_witness :
    (sync_iptables_whitelist (fun _ => true) (some "203.0.113.7")
      ["198.51.100.2", "198.51.100.3"]
      (sync_iptables_whitelist (fun _ => true) (some "203.0.113.7")
        ["198.51.100.1", "198.51.100.2"]
        { chainExists := false, chain := [], inputJumps := [] }).st).st.chain =
      [IptRule.accept "127.0.0.1", IptRule.accept "203.0.113.7",
       IptRule.accept "198.51.100.2", IptRule.accept "198.51.100.3", IptRule.drop] ∧
    IptRule.accept "198.51.100.1" ∉
      (sync_iptables_whitelist (fun _ => true) (some "203.0.113.7")
        ["198.51.100.2", "198.51.100.3"]
        (sync_iptables_whitelist (fun _ => true) (some "203.0.113.7")
          ["198.51.100.1", "198.51.100.2"]
          { chainExists := false, chain := [], inputJumps := [] }).st).st.chain := by
  have h := c5_firewall_chain_exact (some "203.0.113.7") "203.0.113.7"
    ["198.51.100.2", "198.51.100.3"]
    (sync_iptables_whitelist (fun _ => true) (some "203.0.113.7")
      ["198.51.100.1", "198.51.100.2"]
      { chainExists := false, chain := [], inputJumps := [] }).st
    rfl (by decide) (by decide) (by decide)
  refine ⟨?_, ?_⟩
  · rw [h.1]
    decide
  · rw [h.1]
    decide

/-- C4 (amended).  A failure while applying the firewall changes is caught
and logged inside `sync_iptables_whitelist` and never surfaces to the
caller of `apply_changes`: the returned value reflects only the proxy
restart, while the ACL text is generated unconditionally (written before
the sync) and the sync is attempted regardless, so it may be retried
independently. -/
theorem c4_sync_failure_not_reported :
    ∀ (ok ok2 : Nat → Bool) (restartOk : Bool) (serverDomain serverIp : Option String)
      (clients : List ProxyClient) (st0 : IptState),
      (apply_changes ok restartOk serverDomain serverIp clients st0).1 = restartOk ∧
      (apply_changes ok restartOk serverDomain serverIp clients st0).2.configText
        = generate_config serverDomain clients ∧
      (apply_changes ok restartOk serverDomain serverIp clients st0).2.sync
        = sync_iptables_whitelist ok serverIp
            ((clients.filter (fun c => c.is_active)).flatMap (fun c => c.allowed_ips)) st0 ∧
      (apply_changes ok restartOk serverDomain serverIp clients st0).1
        = (apply_changes ok2 restartOk serverDomain serverIp clients st0).1 :=
  fun _ _ _ _ _ _ _ => ⟨rfl, rfl, rfl, rfl⟩

def c4Clients : List ProxyClient :=
  [{ username := "alice", password := "pw",
     domains := [{ domain := "example.com", include_subdomains := true }],
     is_active := true, allowed_ips := ["198.51.100.1"] }]

/-- C4 counterexample.  With every iptables command failing (so the chain
sync certainly fails) but the proxy restart succeeding, `apply_changes`
still returns success, and the sync records that the failure was swallowed
(logged) rather than raised: the firewall failure is not reported to the
caller. -/
theorem c4_counterexample :
    (apply_changes (fun _ => false) true none (some "203.0.113.7") c4Clients
      { chainExists := false, chain := [], inputJumps := [] }).1 = true ∧
    (apply_changes (fun _ => false) true none (some "203.0.113.7") c4Clients
      { chainExists := false, chain := [], inputJumps := [] }).2.sync.swallowed = true := by
  exact ⟨rfl, rfl⟩

/-- C6 (amended).  Every active subscriber with a non-empty domain list gets
an allow rule keyed by its username (authentication required under
`auth iponly strong`), restricted to its expanded domain patterns.  An
active subscriber with no domains gets no rule at all (see the
counterexample), so the rule only covers subscribers with domains. -/
theorem c6_user_allow_rule :
    ∀ (serverDomain : Option String) (clients : List ProxyClient) (c : ProxyClient),
      c ∈ clients → c.is_active = true → c.domains ≠ [] →
      ("allow " ++ c.username ++ " * " ++ joinComma (expandDomains c.domains) ++ " * *")
        ∈ generate_config serverDomain clients := by
  intro sd clients c hc hact hdom
  rw [generate_config]
  refine List.mem_append_left _ (List.mem_append_right _ (List.mem_flatMap.mpr ⟨c, hc, ?_⟩))
  obtain ⟨d, ds, hd⟩ := List.exists_cons_of_ne_nil hdom
  have hexp : expandDomains c.domains =
      d.domain :: ((if d.include_subdomains then ["*." ++ d.domain] else [])
        ++ expandDomains ds) := by
    rw [hd, expandDomains, List.flatMap_cons, List.cons_append]
    rfl
  have hcl : clientLines c =
      (c.allowed_ips.flatMap fun ip =>
        ["", "# IP whitelist for " ++ c.username,
         "allow * " ++ ip ++ " " ++ joinComma (expandDomains c.domains) ++ " * *"]) ++
      ["", "# " ++ c.username,
       "allow " ++ c.username ++ " * " ++ joinComma (expandDomains c.domains) ++ " * *"] := by
    rw [clientLines, if_pos hact, hexp]
  rw [hcl]
  refine List.mem_append_right _ ?_
  exact List.mem_cons_of_mem _ (List.mem_cons_of_mem _ (List.mem_cons_self _ _))

def c6NoDomains : List ProxyClient :=
  [{ username := "alice", password := "pw", domains := [],
     is_active := true, allowed_ips := [] }]

/-- C6 counterexample.  An active subscriber with an empty domain list gets
no allow rule at all: no line of the generated configuration starts with
`allow alice` (every username-keyed allow rule this generator emits has the
form `allow <username> * ...`), contradicting the claim for *every* active
subscriber. -/
theorem c6_counterexample :
    c6NoDomains.all (fun c => c.is_active) = true ∧
    (generate_config none c6NoDomains).all
      (fun l => !(("allow alice".data).isPrefixOf l.data)) = true := by
  exact ⟨rfl, by decide⟩

/-- C6 witness: a concrete active subscriber with one domain and subdomain
expansion enabled. -/
theorem c6_witness :
    ("allow " ++ "bob" ++ " * "
      ++ joinComma (expandDomains [{ domain := "example.com", include_subdomains := true }])
      ++ " * *")
      ∈ generate_config none
        [{ username := "bob", password := "pw",
           domains := [{ domain := "example.com", include_subdomains := true }],
           is_active := true, allowed_ips := [] }] :=
  c6_user_allow_rule none _ _ (List.mem_cons_self _ _) rfl (by decide)

/-! ## Domain resolver (app/services/domain_resolver.py)

IPv4 networks are pairs of a (masked) 32-bit network address and a prefix
length.  `ipaddress.ip_network(s, strict=False)` is modelled by `parseCidr`
for the dotted-quad forms `a.b.c.d` and `a.b.c.d/p` (octets: ASCII digits,
at most three, no leading zeros, at most 255; prefix: ASCII digits, at most
32; host bits masked off).  `str(network)` is `renderCidr`.
`ipaddress.collapse_addresses` is modelled from its documented semantics:
merge overlapping and adjacent networks into the minimal covering set —
realised here as: convert to half-open address intervals, sort and merge
them, and re-emit each merged interval as the greedy list of maximal
aligned blocks (exactly the decomposition `summarize_address_range`
produces). -/

structure Cidr where
  addr : Nat
  pfx : Nat
deriving DecidableEq

def cidrSize (c : Cidr) : Nat := 2 ^ (32 - c.pfx)

/-- The half-open interval of addresses a network covers. -/
def ivOf (c : Cidr) : Nat × Nat := (c.addr, c.addr + cidrSize c)

/-- A well-formed network: prefix at most 32, address within 32 bits and
aligned to the prefix (no host bits). -/
def CanonCidr (c : Cidr) : Prop :=
  c.pfx ≤ 32 ∧ c.addr < 2 ^ 32 ∧ c.addr % 2 ^ (32 - c.pfx) = 0

/-- One dotted-quad octet, as `ipaddress._parse_octet` accepts it: one to
three ASCII digits, no leading zero, value at most 255. -/
def parseOctet : List Char → Option Nat
  | [] => none
  | c :: rest =>
    if (c :: rest).length ≤ 3 && (c :: rest).all pyDigit then
      if c = '0' ∧ rest ≠ [] then none
      else if digitsVal (c :: rest) ≤ 255 then some (digitsVal (c :: rest)) else none
    else none

/-- A prefix length: ASCII digits (leading zeros allowed), value at most
32. -/
def parsePfx (l : List Char) : Option Nat :=
  match l with
  | [] => none
  | _ =>
    if l.all pyDigit then (if digitsVal l ≤ 32 then some (digitsVal l) else none)
    else none

def parseIPv4 (l : List Char) : Option Nat :=
  match splitOnChar '.' l with
  | [a, b, c, d] =>
    match parseOctet a, parseOctet b, parseOctet c, parseOctet d with
    | some w, some x, some y, some z => some (((w * 256 + x) * 256 + y) * 256 + z)
    | _, _, _, _ => none
  | _ => none

/-- Clearing the host bits, as `strict=False` does. -/
def maskAddr (addr pfx : Nat) : Nat := addr / 2 ^ (32 - pfx) * 2 ^ (32 - pfx)

/-- `ipaddress.ip_network(s, strict=False)` on the dotted-quad grammar. -/
def parseCidr (s : String) : Option Cidr :=
  match splitOnChar '/' s.data with
  | [ip] => (parseIPv4 ip).map (fun a => ⟨a, 32⟩)
  | [ip, p] =>
    match parseIPv4 ip, parsePfx p with
    | some a, some pfx => some ⟨maskAddr a pfx, pfx⟩
    | _, _ => none
  | _ => none

def renderOctets (a : Nat) : List Char :=
  renderNat (a / 16777216) ++ '.' ::
    (renderNat (a / 65536 % 256) ++ '.' ::
      (renderNat (a / 256 % 256) ++ '.' :: renderNat (a % 256)))

/-- `str(network)`: dotted quad, slash, prefix length. -/
def renderCidr (c : Cidr) : String :=
  String.mk (renderOctets c.addr ++ '/' :: renderNat c.pfx)

theorem parseOctet_renderNat : ∀ n, n < 256 → parseOctet (renderNat n) = some n := by
  decide

theorem parsePfx_renderNat : ∀ p, p < 33 → parsePfx (renderNat p) = some p := by
  decide

theorem renderNat_all_digits : ∀ n, n < 256 → (renderNat n).all pyDigit = true := by
  decide

theorem renderNat_all_digits_33 : ∀ p, p < 33 → (renderNat p).all pyDigit = true := by
  decide

theorem pyDigit_ne_dot_slash {c : Char} (h : pyDigit c = true) : c ≠ '.' ∧ c ≠ '/' := by
  constructor
  · intro heq; rw [heq] at h; exact absurd h (by decide)
  · intro heq; rw [heq] at h; exact absurd h (by decide)

theorem splitOnChar_of_not_mem {sep : Char} {l : List Char} (h : ∀ c ∈ l, c ≠ sep) :
    splitOnChar sep l = [l] := by
  induction l with
  | nil => rfl
  | cons x xs ih =>
    rw [splitOnChar, if_neg (by simp [h x (by simp)]), ih (fun c hc => h c (by simp [hc]))]

theorem splitOnChar_append {sep : Char} {l1 l2 : List Char} (h : ∀ c ∈ l1, c ≠ sep) :
    splitOnChar sep (l1 ++ sep :: l2) = l1 :: splitOnChar sep l2 := by
  induction l1 with
  | nil =>
    show splitOnChar sep (sep :: l2) = [] :: splitOnChar sep l2
    rw [splitOnChar, if_pos (by simp)]
  | cons x xs ih =>
    rw [List.cons_append, splitOnChar, if_neg (by simp [h x (by simp)]),
      ih (fun c hc => h c (by simp [hc]))]

theorem renderNat_ne_sep {n : Nat} (hn : n < 256) :
    ∀ c ∈ renderNat n, c ≠ '.' ∧ c ≠ '/' := by
  intro c hc
  exact pyDigit_ne_dot_slash (List.all_eq_true.mp (renderNat_all_digits n hn) c hc)

theorem parseIPv4_renderOctets {a : Nat} (ha : a < 2 ^ 32) :
    parseIPv4 (renderOctets a) = some a := by
  have h1 : a / 16777216 < 256 := by omega
  have h2 : a / 65536 % 256 < 256 := Nat.mod_lt _ (by norm_num)
  have h3 : a / 256 % 256 < 256 := Nat.mod_lt _ (by norm_num)
  have h4 : a % 256 < 256 := Nat.mod_lt _ (by norm_num)
  rw [parseIPv4, renderOctets,
    splitOnChar_append (fun c hc => (renderNat_ne_sep h1 c hc).1),
    splitOnChar_append (fun c hc => (renderNat_ne_sep h2 c hc).1),
    splitOnChar_append (fun c hc => (renderNat_ne_sep h3 c hc).1),
    splitOnChar_of_not_mem (fun c hc => (renderNat_ne_sep h4 c hc).1)]
  show (match parseOctet (renderNat (a / 16777216)), parseOctet (renderNat (a / 65536 % 256)),
      parseOctet (renderNat (a / 256 % 256)), parseOctet (renderNat (a % 256)) with
    | some w, some x, some y, some z => some (((w * 256 + x) * 256 + y) * 256 + z)
    | _, _, _, _ => none) = some a
  rw [parseOctet_renderNat _ h1, parseOctet_renderNat _ h2, parseOctet_renderNat _ h3,
    parseOctet_renderNat _ h4]
  show some ((((a / 16777216) * 256 + a / 65536 % 256) * 256 + a / 256 % 256) * 256 + a % 256)
    = some a
  congr 1
  omega

theorem renderOctets_chars {a : Nat} (ha : a < 2 ^ 32) :
    ∀ c ∈ renderOctets a, c ≠ '/' := by
  have h1 : a / 16777216 < 256 := by omega
  have h2 : a / 65536 % 256 < 256 := Nat.mod_lt _ (by norm_num)
  have h3 : a / 256 % 256 < 256 := Nat.mod_lt _ (by norm_num)
  have h4 : a % 256 < 256 := Nat.mod_lt _ (by norm_num)
  intro c hc
  rw [renderOctets] at hc
  rcases List.mem_append.mp hc with h | h
  · exact (renderNat_ne_sep h1 c h).2
  · rcases List.mem_cons.mp h with h | h
    · rw [h]; decide
    · rcases List.mem_append.mp h with h | h
      · exact (renderNat_ne_sep h2 c h).2
      · rcases List.mem_cons.mp h with h | h
        · rw [h]; decide
        · rcases List.mem_append.mp h with h | h
          · exact (renderNat_ne_sep h3 c h).2
          · rcases List.mem_cons.mp h with h | h
            · rw [h]; decide
            · exact (renderNat_ne_sep h4 c h).2

theorem parseCidr_renderCidr {c : Cidr} (h : CanonCidr c) :
    parseCidr (renderCidr c) = some c := by
  obtain ⟨hp, ha, hm⟩ := h
  have hpd : ∀ ch ∈ renderNat c.pfx, ch ≠ '/' := fun ch hch =>
    (pyDigit_ne_dot_slash (List.all_eq_true.mp (renderNat_all_digits_33 c.pfx (by omega)) ch hch)).2
  rw [parseCidr]
  rw [show (renderCidr c).data = renderOctets c.addr ++ '/' :: renderNat c.pfx from rfl]
  rw [splitOnChar_append (renderOctets_chars ha), splitOnChar_of_not_mem hpd]
  show (match parseIPv4 (renderOctets c.addr), parsePfx (renderNat c.pfx) with
    | some a, some pfx => some (⟨maskAddr a pfx, pfx⟩ : Cidr)
    | _, _ => none) = some c
  rw [parseIPv4_renderOctets ha, parsePfx_renderNat _ (by omega)]
  show some (⟨maskAddr c.addr c.pfx, c.pfx⟩ : Cidr) = some c
  rw [maskAddr, Nat.div_mul_cancel (Nat.dvd_of_mod_eq_zero hm)]

/-- Order on intervals by lower endpoint, as the collapse sorts networks by
network address. -/
def ivLe (i j : Nat × Nat) : Prop := i.1 ≤ j.1

instance : DecidableRel ivLe := fun i j => Nat.decLe i.1 j.1

instance : IsTotal (Nat × Nat) ivLe where
  total i j := Nat.le_total i.1 j.1

instance : IsTrans (Nat × Nat) ivLe where
  trans _ _ _ h1 h2 := Nat.le_trans h1 h2

def sortIvs (l : List (Nat × Nat)) : List (Nat × Nat) := List.insertionSort ivLe l

/-- Merging a sorted run of intervals: overlapping or adjacent intervals are
fused. -/
def mergeRuns (cur : Nat × Nat) : List (Nat × Nat) → List (Nat × Nat)
  | [] => [cur]
  | j :: rest =>
    if j.1 ≤ cur.2 then mergeRuns (cur.1, max cur.2 j.2) rest
    else cur :: mergeRuns j rest

/-- Canonical interval form of a set of addresses: sort by lower endpoint,
then merge overlapping/adjacent intervals. -/
def normalizeIvs (l : List (Nat × Nat)) : List (Nat × Nat) :=
  match sortIvs l with
  | [] => []
  | i :: rest => mergeRuns i rest

/-- The set of addresses a list of half-open intervals covers. -/
def covers (l : List (Nat × Nat)) (a : Nat) : Prop := ∃ p ∈ l, p.1 ≤ a ∧ a < p.2

theorem covers_cons {x : Nat × Nat} {l : List (Nat × Nat)} {a : Nat} :
    covers (x :: l) a ↔ (x.1 ≤ a ∧ a < x.2) ∨ covers l a := by
  constructor
  · rintro ⟨p, hp, h1, h2⟩
    rcases List.mem_cons.mp hp with h | h
    · exact Or.inl (h ▸ ⟨h1, h2⟩)
    · exact Or.inr ⟨p, h, h1, h2⟩
  · rintro (⟨h1, h2⟩ | ⟨p, hp, h1, h2⟩)
    · exact ⟨x, List.mem_cons_self _ _, h1, h2⟩
    · exact ⟨p, List.mem_cons_of_mem _ hp, h1, h2⟩

theorem covers_append {l1 l2 : List (Nat × Nat)} {a : Nat} :
    covers (l1 ++ l2) a ↔ covers l1 a ∨ covers l2 a := by
  constructor
  · rintro ⟨p, hp, h1, h2⟩
    rcases List.mem_append.mp hp with h | h
    · exact Or.inl ⟨p, h, h1, h2⟩
    · exact Or.inr ⟨p, h, h1, h2⟩
  · rintro (⟨p, hp, h1, h2⟩ | ⟨p, hp, h1, h2⟩)
    · exact ⟨p, List.mem_append_left _ hp, h1, h2⟩
    · exact ⟨p, List.mem_append_right _ hp, h1, h2⟩

theorem covers_perm {l1 l2 : List (Nat × Nat)} (h : l1.Perm l2) {a : Nat} :
    covers l1 a ↔ covers l2 a := by
  constructor
  · rintro ⟨p, hp, h1, h2⟩; exact ⟨p, h.mem_iff.mp hp, h1, h2⟩
  · rintro ⟨p, hp, h1, h2⟩; exact ⟨p, h.mem_iff.mpr hp, h1, h2⟩

theorem covers_mergeRuns :
    ∀ (rest : List (Nat × Nat)) (cur : Nat × Nat),
      (∀ k ∈ rest, cur.1 ≤ k.1) → rest.Sorted ivLe →
      ∀ a, covers (mergeRuns cur rest) a ↔ covers (cur :: rest) a := by
  intro rest
  induction rest with
  | nil => intro cur _ _ a; rfl
  | cons j rest' ih =>
    intro cur hmin hsort a
    have hs := List.sorted_cons.mp hsort
    rw [mergeRuns]
    by_cases hj : j.1 ≤ cur.2
    · rw [if_pos hj]
      rw [ih (cur.1, max cur.2 j.2) (fun k hk => hmin k (List.mem_cons_of_mem _ hk)) hs.2 a]
      rw [covers_cons, covers_cons, covers_cons]
      have hcj : cur.1 ≤ j.1 := hmin j (List.mem_cons_self _ _)
      constructor
      · rintro (⟨h1, h2⟩ | h)
        · rcases Nat.lt_or_ge a cur.2 with h3 | h3
          · exact Or.inl ⟨h1, h3⟩
          · refine Or.inr (Or.inl ⟨by omega, by simp at h2; omega⟩)
        · exact Or.inr (Or.inr h)
      · rintro (⟨h1, h2⟩ | ⟨h1, h2⟩ | h)
        · exact Or.inl ⟨h1, by simp; omega⟩
        · exact Or.inl ⟨by omega, by simp; omega⟩
        · exact Or.inr h
    · rw [if_neg hj]
      rw [covers_cons, covers_cons,
        ih j hs.1 hs.2 a, covers_cons]

theorem mergeRuns_head :
    ∀ (rest : List (Nat × Nat)) (cur : Nat × Nat),
      ∃ hi t, mergeRuns cur rest = (cur.1, hi) :: t ∧ cur.2 ≤ hi := by
  intro rest
  induction rest with
  | nil => intro cur; exact ⟨cur.2, [], rfl, Nat.le_refl _⟩
  | cons j rest' ih =>
    intro cur
    rw [mergeRuns]
    by_cases hj : j.1 ≤ cur.2
    · rw [if_pos hj]
      obtain ⟨hi, t, he, hle⟩ := ih (cur.1, max cur.2 j.2)
      exact ⟨hi, t, he, Nat.le_trans (Nat.le_max_left _ _) hle⟩
    · rw [if_neg hj]
      obtain ⟨hi, t, he, _⟩ := ih j
      exact ⟨cur.2, mergeRuns j rest', rfl, Nat.le_refl _⟩

/-- Canonical interval lists: strictly separated (a gap between consecutive
intervals) and every interval non-empty. -/
def CanonIvs (l : List (Nat × Nat)) : Prop :=
  l.Chain' (fun i j => i.2 < j.1) ∧ ∀ k ∈ l, k.1 < k.2

theorem chain_mergeRuns :
    ∀ (rest : List (Nat × Nat)) (cur : Nat × Nat),
      (∀ k ∈ rest, cur.1 ≤ k.1) → rest.Sorted ivLe →
      cur.1 < cur.2 → (∀ k ∈ rest, k.1 < k.2) →
      CanonIvs (mergeRuns cur rest) := by
  intro rest
  induction rest with
  | nil =>
    intro cur _ _ hne _
    exact ⟨List.chain'_singleton _, fun k hk => by
      rw [List.mem_singleton.mp hk]; exact hne⟩
  | cons j rest' ih =>
    intro cur hmin hsort hne hnes
    have hs := List.sorted_cons.mp hsort
    rw [mergeRuns]
    by_cases hj : j.1 ≤ cur.2
    · rw [if_pos hj]
      refine ih (cur.1, max cur.2 j.2)
        (fun k hk => hmin k (List.mem_cons_of_mem _ hk)) hs.2
        (by simp; omega)
        (fun k hk => hnes k (List.mem_cons_of_mem _ hk))
    · rw [if_neg hj]
      have hrec := ih j hs.1 hs.2 (hnes j (List.mem_cons_self _ _))
        (fun k hk => hnes k (List.mem_cons_of_mem _ hk))
      obtain ⟨hi, t, he, _⟩ := mergeRuns_head rest' j
      refine ⟨?_, ?_⟩
      · rw [List.chain'_cons']
        refine ⟨?_, hrec.1⟩
        intro b hb
        rw [he] at hb
        simp only [List.head?_cons, Option.mem_def, Option.some.injEq] at hb
        rw [← hb]
        omega
      · intro k hk
        rcases List.mem_cons.mp hk with h | h
        · rw [h]; exact hne
        · exact hrec.2 k h

theorem canon_rel_of_mem :
    ∀ {t : List (Nat × Nat)} {i : Nat × Nat},
      CanonIvs (i :: t) → ∀ j ∈ t, i.2 < j.1 := by
  intro t
  induction t with
  | nil => intro i _ j hj; cases hj
  | cons k t' ih =>
    intro i hc j hj
    have hik : i.2 < k.1 := (List.chain'_cons.mp hc.1).1
    rcases List.mem_cons.mp hj with h | h
    · rw [h]; exact hik
    · have hk2 : k.1 < k.2 := hc.2 k (by simp)
      have hc' : CanonIvs (k :: t') :=
        ⟨(List.chain'_cons.mp hc.1).2, fun x hx => hc.2 x (List.mem_cons_of_mem _ hx)⟩
      have := ih hc' j h
      omega

theorem canon_tail {i : Nat × Nat} {t : List (Nat × Nat)} (h : CanonIvs (i :: t)) :
    CanonIvs t :=
  ⟨(List.chain'_cons'.mp h.1).2, fun x hx => h.2 x (List.mem_cons_of_mem _ hx)⟩

/-- Two canonical interval lists covering the same addresses are equal. -/
theorem canon_unique :
    ∀ (l1 l2 : List (Nat × Nat)), CanonIvs l1 → CanonIvs l2 →
      (∀ a, covers l1 a ↔ covers l2 a) → l1 = l2 := by
  intro l1
  induction l1 with
  | nil =>
    intro l2 _ hc2 hcov
    cases l2 with
    | nil => rfl
    | cons j t2 =>
      have hj : covers (j :: t2) j.1 :=
        ⟨j, List.mem_cons_self _ _, Nat.le_refl _, hc2.2 j (by simp)⟩
      obtain ⟨p, hp, _, _⟩ := (hcov j.1).mpr hj
      cases hp
  | cons i t1 ih =>
    intro l2 hc1 hc2 hcov
    cases l2 with
    | nil =>
      have hi : covers (i :: t1) i.1 :=
        ⟨i, List.mem_cons_self _ _, Nat.le_refl _, hc1.2 i (by simp)⟩
      obtain ⟨p, hp, _, _⟩ := (hcov i.1).mp hi
      cases hp
    | cons j t2 =>
      have hine : i.1 < i.2 := hc1.2 i (by simp)
      have hjne : j.1 < j.2 := hc2.2 j (by simp)
      have hmin12 : j.1 ≤ i.1 := by
        have hi : covers (i :: t1) i.1 := ⟨i, List.mem_cons_self _ _, Nat.le_refl _, hine⟩
        obtain ⟨p, hp, hp1, _⟩ := (hcov i.1).mp hi
        rcases List.mem_cons.mp hp with h | h
        · rw [← h]; exact hp1
        · have := canon_rel_of_mem hc2 p h
          omega
      have hmin21 : i.1 ≤ j.1 := by
        have hj : covers (j :: t2) j.1 := ⟨j, List.mem_cons_self _ _, Nat.le_refl _, hjne⟩
        obtain ⟨p, hp, hp1, _⟩ := (hcov j.1).mpr hj
        rcases List.mem_cons.mp hp with h | h
        · rw [← h]; exact hp1
        · have := canon_rel_of_mem hc1 p h
          omega
      have h1eq : i.1 = j.1 := Nat.le_antisymm hmin21 hmin12
      have hn1 : ¬(i.2 < j.2) := by
        intro hlt
        have ha : covers (j :: t2) i.2 := by
          rw [covers_cons]
          exact Or.inl ⟨by omega, hlt⟩
        obtain ⟨p, hp, hp1, hp2⟩ := (hcov i.2).mpr ha
        rcases List.mem_cons.mp hp with h | h
        · rw [h] at hp2
          omega
        · have := canon_rel_of_mem hc1 p h
          omega
      have hn2 : ¬(j.2 < i.2) := by
        intro hlt
        have ha : covers (i :: t1) j.2 := by
          rw [covers_cons]
          exact Or.inl ⟨by omega, hlt⟩
        obtain ⟨p, hp, hp1, hp2⟩ := (hcov j.2).mp ha
        rcases List.mem_cons.mp hp with h | h
        · rw [h] at hp2
          omega
        · have := canon_rel_of_mem hc2 p h
          omega
      have h2eq : i.2 = j.2 := by omega
      have hhead : i = j := by
        rw [Prod.ext_iff]
        exact ⟨h1eq, h2eq⟩
      have htails : ∀ a, covers t1 a ↔ covers t2 a := by
        intro a
        constructor
        · rintro ⟨p, hp, hp1, hp2⟩
          have hgt : i.2 < p.1 := canon_rel_of_mem hc1 p hp
          obtain ⟨q, hq, hq1, hq2⟩ :=
            (hcov a).mp ⟨p, List.mem_cons_of_mem _ hp, hp1, hp2⟩
          rcases List.mem_cons.mp hq with h | h
          · rw [h] at hq2
            omega
          · exact ⟨q, h, hq1, hq2⟩
        · rintro ⟨p, hp, hp1, hp2⟩
          have hgt : j.2 < p.1 := canon_rel_of_mem hc2 p hp
          obtain ⟨q, hq, hq1, hq2⟩ :=
            (hcov a).mpr ⟨p, List.mem_cons_of_mem _ hp, hp1, hp2⟩
          rcases List.mem_cons.mp hq with h | h
          · rw [h] at hq2
            omega
          · exact ⟨q, h, hq1, hq2⟩
      rw [hhead, ih t2 (canon_tail hc1) (canon_tail hc2) htails]

theorem covers_normalizeIvs (l : List (Nat × Nat)) :
    ∀ a, covers (normalizeIvs l) a ↔ covers l a := by
  intro a
  rw [normalizeIvs]
  have hperm : (sortIvs l).Perm l := List.perm_insertionSort _ _
  have hsort : (sortIvs l).Sorted ivLe := List.sorted_insertionSort _ _
  cases hs : sortIvs l with
  | nil =>
    have hl : l = [] := (hs ▸ hperm).nil_eq.symm
    rw [hl]
  | cons i rest =>
    rw [hs] at hperm hsort
    have hscons := List.sorted_cons.mp hsort
    rw [covers_mergeRuns rest i hscons.1 hscons.2 a]
    exact covers_perm hperm

theorem canon_normalizeIvs (l : List (Nat × Nat)) (hne : ∀ k ∈ l, k.1 < k.2) :
    CanonIvs (normalizeIvs l) := by
  rw [normalizeIvs]
  have hperm : (sortIvs l).Perm l := List.perm_insertionSort _ _
  have hsort : (sortIvs l).Sorted ivLe := List.sorted_insertionSort _ _
  cases hs : sortIvs l with
  | nil => exact ⟨List.chain'_nil, fun k hk => absurd hk (List.not_mem_nil k)⟩
  | cons i rest =>
    rw [hs] at hperm hsort
    have hscons := List.sorted_cons.mp hsort
    have hmem : ∀ k ∈ i :: rest, k.1 < k.2 := fun k hk => hne k (hperm.mem_iff.mp hk)
    exact chain_mergeRuns rest i hscons.1 hscons.2 (hmem i (by simp))
      (fun k hk => hmem k (List.mem_cons_of_mem _ hk))

/-- The canonical form depends only on the covered set of addresses. -/
theorem normalizeIvs_ext {l1 l2 : List (Nat × Nat)}
    (hne1 : ∀ k ∈ l1, k.1 < k.2) (hne2 : ∀ k ∈ l2, k.1 < k.2)
    (h : ∀ a, covers l1 a ↔ covers l2 a) : normalizeIvs l1 = normalizeIvs l2 :=
  canon_unique _ _ (canon_normalizeIvs l1 hne1) (canon_normalizeIvs l2 hne2)
    (fun a => ((covers_normalizeIvs l1 a).trans (h a)).trans (covers_normalizeIvs l2 a).symm)

/-- The largest power-of-two block size aligned at `lo` that fits inside
`[lo, hi)` (searching down from `2 ^ 32`), as `summarize_address_range`
chooses it. -/
def maxKGo (lo hi : Nat) : Nat → Nat
  | 0 => 0
  | k + 1 =>
    if lo % 2 ^ (k + 1) = 0 ∧ lo + 2 ^ (k + 1) ≤ hi then k + 1 else maxKGo lo hi k

def maxK (lo hi : Nat) : Nat := maxKGo lo hi 32

theorem maxKGo_le (lo hi : Nat) : ∀ n, maxKGo lo hi n ≤ n := by
  intro n
  induction n with
  | zero => exact Nat.le_refl _
  | succ k ih =>
    rw [maxKGo]
    by_cases h : lo % 2 ^ (k + 1) = 0 ∧ lo + 2 ^ (k + 1) ≤ hi
    · rw [if_pos h]
    · rw [if_neg h]
      exact Nat.le_trans ih (Nat.le_succ _)

theorem maxKGo_spec (lo hi : Nat) (h : lo < hi) :
    ∀ n, lo % 2 ^ maxKGo lo hi n = 0 ∧ lo + 2 ^ maxKGo lo hi n ≤ hi := by
  intro n
  induction n with
  | zero =>
    refine ⟨Nat.mod_one lo, ?_⟩
    show lo + 1 ≤ hi
    omega
  | succ k ih =>
    rw [maxKGo]
    by_cases hc : lo % 2 ^ (k + 1) = 0 ∧ lo + 2 ^ (k + 1) ≤ hi
    · rw [if_pos hc]
      exact hc
    · rw [if_neg hc]
      exact ih

/-- The greedy decomposition of `[lo, hi)` into maximal aligned blocks,
fuelled (the fuel bounds `hi - lo`). -/
def splitIvAux : Nat → Nat → Nat → List Cidr
  | 0, _, _ => []
  | fuel + 1, lo, hi =>
    if lo < hi then
      ⟨lo, 32 - maxK lo hi⟩ :: splitIvAux fuel (lo + 2 ^ maxK lo hi) hi
    else []

def splitIv (lo hi : Nat) : List Cidr := splitIvAux (hi - lo) lo hi

theorem splitIvAux_spec :
    ∀ (fuel lo hi : Nat), hi - lo ≤ fuel →
      (∀ a, covers ((splitIvAux fuel lo hi).map ivOf) a ↔ (lo ≤ a ∧ a < hi)) ∧
      (∀ b ∈ splitIvAux fuel lo hi,
        b.pfx ≤ 32 ∧ lo ≤ b.addr ∧ b.addr < hi ∧ b.addr % 2 ^ (32 - b.pfx) = 0) ∧
      (splitIvAux fuel lo hi).Pairwise (fun b1 b2 => b1.addr < b2.addr) := by
  intro fuel
  induction fuel with
  | zero =>
    intro lo hi hf
    refine ⟨?_, fun b hb => absurd hb (List.not_mem_nil b), List.Pairwise.nil⟩
    intro a
    show covers [] a ↔ _
    constructor
    · rintro ⟨p, hp, _⟩
      cases hp
    · rintro ⟨h1, h2⟩
      omega
  | succ fuel ih =>
    intro lo hi hf
    rw [splitIvAux]
    by_cases hlt : lo < hi
    · rw [if_pos hlt]
      have hk : lo % 2 ^ maxK lo hi = 0 ∧ lo + 2 ^ maxK lo hi ≤ hi :=
        maxKGo_spec lo hi hlt 32
      have hkle : maxK lo hi ≤ 32 := maxKGo_le lo hi 32
      have hkpos : 1 ≤ 2 ^ maxK lo hi := Nat.one_le_two_pow
      have hfe : hi - (lo + 2 ^ maxK lo hi) ≤ fuel := by omega
      obtain ⟨ihcov, ihmem, ihpair⟩ := ih (lo + 2 ^ maxK lo hi) hi hfe
      have hiv : ivOf ⟨lo, 32 - maxK lo hi⟩ = (lo, lo + 2 ^ maxK lo hi) := by
        rw [ivOf, cidrSize]
        show (lo, lo + 2 ^ (32 - (32 - maxK lo hi))) = _
        rw [show 32 - (32 - maxK lo hi) = maxK lo hi from by omega]
      refine ⟨?_, ?_, ?_⟩
      · intro a
        rw [List.map_cons, hiv, covers_cons]
        rw [ihcov a]
        show (lo ≤ a ∧ a < lo + 2 ^ maxK lo hi) ∨ _ ↔ _
        omega
      · intro b hb
        rcases List.mem_cons.mp hb with h | h
        · rw [h]
          refine ⟨by show 32 - maxK lo hi ≤ 32; omega, Nat.le_refl _, hlt, ?_⟩
          show lo % 2 ^ (32 - (32 - maxK lo hi)) = 0
          rw [show 32 - (32 - maxK lo hi) = maxK lo hi from by omega]
          exact hk.1
        · obtain ⟨_, hb1, hb2, hb3⟩ := ihmem b h
          exact ⟨(ihmem b h).1, by omega, hb2, hb3⟩
      · rw [List.pairwise_cons]
        refine ⟨?_, ihpair⟩
        intro b hb
        have := (ihmem b hb).2.1
        show lo < b.addr
        omega
    · rw [if_neg hlt]
      refine ⟨?_, fun b hb => absurd hb (List.not_mem_nil b), List.Pairwise.nil⟩
      intro a
      constructor
      · rintro ⟨p, hp, _⟩
        cases hp
      · rintro ⟨h1, h2⟩
        omega

theorem splitIv_spec (lo hi : Nat) :
    (∀ a, covers ((splitIv lo hi).map ivOf) a ↔ (lo ≤ a ∧ a < hi)) ∧
    (∀ b ∈ splitIv lo hi,
      b.pfx ≤ 32 ∧ lo ≤ b.addr ∧ b.addr < hi ∧ b.addr % 2 ^ (32 - b.pfx) = 0) ∧
    (splitIv lo hi).Pairwise (fun b1 b2 => b1.addr < b2.addr) :=
  splitIvAux_spec (hi - lo) lo hi (Nat.le_refl _)

/-- Model of `ipaddress.collapse_addresses`: the minimal set of networks
covering the union of the inputs — every merged interval re-emitted as its
greedy maximal-block decomposition. -/
def collapse_addresses (cs : List Cidr) : List Cidr :=
  (normalizeIvs (cs.map ivOf)).flatMap (fun p => splitIv p.1 p.2)

theorem ivOf_nonempty (c : Cidr) : (ivOf c).1 < (ivOf c).2 := by
  rw [ivOf]
  show c.addr < c.addr + cidrSize c
  have : 0 < cidrSize c := Nat.pos_pow_of_pos _ (by norm_num)
  omega

theorem map_ivOf_nonempty (cs : List Cidr) : ∀ k ∈ cs.map ivOf, k.1 < k.2 := by
  intro k hk
  obtain ⟨c, _, hc⟩ := List.mem_map.mp hk
  rw [← hc]
  exact ivOf_nonempty c

theorem covers_flatMapSplit :
    ∀ (N : List (Nat × Nat)) (a : Nat),
      covers ((N.flatMap (fun p => splitIv p.1 p.2)).map ivOf) a ↔ covers N a := by
  intro N
  induction N with
  | nil => intro a; rfl
  | cons p N' ih =>
    intro a
    rw [List.flatMap_cons, List.map_append, covers_append, ih a, covers_cons,
      (splitIv_spec p.1 p.2).1 a]

theorem covers_collapse (cs : List Cidr) (a : Nat) :
    covers ((collapse_addresses cs).map ivOf) a ↔ covers (cs.map ivOf) a := by
  rw [collapse_addresses, covers_flatMapSplit, covers_normalizeIvs]

/-- Upper endpoints survive normalisation bounded. -/
theorem mergeRuns_hi_le {B : Nat} :
    ∀ (rest : List (Nat × Nat)) (cur : Nat × Nat),
      cur.2 ≤ B → (∀ k ∈ rest, k.2 ≤ B) →
      ∀ k ∈ mergeRuns cur rest, k.2 ≤ B := by
  intro rest
  induction rest with
  | nil =>
    intro cur hc _ k hk
    rw [List.mem_singleton.mp hk]
    exact hc
  | cons j rest' ih =>
    intro cur hc hr k hk
    rw [mergeRuns] at hk
    by_cases hj : j.1 ≤ cur.2
    · rw [if_pos hj] at hk
      refine ih (cur.1, max cur.2 j.2) ?_ (fun x hx => hr x (List.mem_cons_of_mem _ hx)) k hk
      have := hr j (List.mem_cons_self _ _)
      simp
      omega
    · rw [if_neg hj] at hk
      rcases List.mem_cons.mp hk with h | h
      · rw [h]; exact hc
      · exact ih j (hr j (List.mem_cons_self _ _))
          (fun x hx => hr x (List.mem_cons_of_mem _ hx)) k h

theorem normalizeIvs_hi_le {B : Nat} {l : List (Nat × Nat)} (h : ∀ k ∈ l, k.2 ≤ B) :
    ∀ k ∈ normalizeIvs l, k.2 ≤ B := by
  rw [normalizeIvs]
  have hperm : (sortIvs l).Perm l := List.perm_insertionSort _ _
  cases hs : sortIvs l with
  | nil => intro k hk; cases hk
  | cons i rest =>
    rw [hs] at hperm
    have hall : ∀ k ∈ i :: rest, k.2 ≤ B := fun k hk => h k (hperm.mem_iff.mp hk)
    exact mergeRuns_hi_le rest i (hall i (by simp))
      (fun k hk => hall k (List.mem_cons_of_mem _ hk))

/-- Every block `collapse_addresses` emits is a well-formed network, given
well-formed inputs. -/
theorem collapse_canon {cs : List Cidr} (h : ∀ c ∈ cs, CanonCidr c) :
    ∀ b ∈ collapse_addresses cs, CanonCidr b := by
  intro b hb
  rw [collapse_addresses] at hb
  obtain ⟨p, hp, hbp⟩ := List.mem_flatMap.mp hb
  have hhi : p.2 ≤ 2 ^ 32 := by
    refine normalizeIvs_hi_le ?_ p hp
    intro k hk
    obtain ⟨c, hc, hck⟩ := List.mem_map.mp hk
    obtain ⟨hp32, ha32, hal⟩ := h c hc
    rw [← hck, ivOf]
    show c.addr + cidrSize c ≤ 2 ^ 32
    rw [cidrSize]
    obtain ⟨q, hq⟩ := Nat.dvd_of_mod_eq_zero hal
    rw [Nat.mul_comm] at hq
    have hpow : 2 ^ c.pfx * 2 ^ (32 - c.pfx) = 2 ^ 32 := by
      rw [← Nat.pow_add]
      congr 1
      omega
    have hqlt : q + 1 ≤ 2 ^ c.pfx := by
      by_contra hge
      push_neg at hge
      have h1 : 2 ^ c.pfx * 2 ^ (32 - c.pfx) ≤ q * 2 ^ (32 - c.pfx) :=
        Nat.mul_le_mul_right _ (by omega)
      rw [hpow] at h1
      omega
    have h2 : (q + 1) * 2 ^ (32 - c.pfx) ≤ 2 ^ c.pfx * 2 ^ (32 - c.pfx) :=
      Nat.mul_le_mul_right _ hqlt
    rw [hpow, Nat.add_mul, Nat.one_mul] at h2
    omega
  obtain ⟨hpfx, hlo, hhi', hal⟩ := (splitIv_spec p.1 p.2).2.1 b hbp
  exact ⟨hpfx, by omega, hal⟩

theorem collapse_pairwise (cs : List Cidr) :
    (collapse_addresses cs).Pairwise (fun b1 b2 => b1.addr < b2.addr) := by
  rw [collapse_addresses]
  have hcanon : CanonIvs (normalizeIvs (cs.map ivOf)) :=
    canon_normalizeIvs _ (map_ivOf_nonempty cs)
  revert hcanon
  generalize normalizeIvs (cs.map ivOf) = N
  intro hcanon
  induction N with
  | nil => exact List.Pairwise.nil
  | cons p N' ih =>
    rw [List.flatMap_cons, List.pairwise_append]
    refine ⟨(splitIv_spec p.1 p.2).2.2, ih (canon_tail hcanon), ?_⟩
    intro b1 hb1 b2 hb2
    obtain ⟨q, hq, hb2q⟩ := List.mem_flatMap.mp hb2
    have h1 : b1.addr < p.2 := ((splitIv_spec p.1 p.2).2.1 b1 hb1).2.2.1
    have h2 : q.1 ≤ b2.addr := ((splitIv_spec q.1 q.2).2.1 b2 hb2q).2.1
    have h3 : p.2 < q.1 := canon_rel_of_mem hcanon q hq
    omega

theorem parseOctet_le {l : List Char} {n : Nat} (h : parseOctet l = some n) : n ≤ 255 := by
  match l with
  | [] => cases h
  | c :: rest =>
    rw [parseOctet] at h
    split at h
    · split at h
      · cases h
      · split at h
        · cases h
          rename_i h3
          exact h3
        · cases h
    · cases h

theorem parsePfx_le {l : List Char} {p : Nat} (h : parsePfx l = some p) : p ≤ 32 := by
  match l with
  | [] => cases h
  | c :: rest =>
    have h2 : (if (c :: rest).all pyDigit = true then
        (if digitsVal (c :: rest) ≤ 32 then some (digitsVal (c :: rest)) else none)
        else none) = some p := h
    by_cases hd : (c :: rest).all pyDigit = true
    · rw [if_pos hd] at h2
      by_cases hv : digitsVal (c :: rest) ≤ 32
      · rw [if_pos hv] at h2
        cases h2
        exact hv
      · rw [if_neg hv] at h2
        cases h2
    · rw [if_neg hd] at h2
      cases h2

theorem parseIPv4_lt {l : List Char} {a : Nat} (h : parseIPv4 l = some a) : a < 2 ^ 32 := by
  rw [parseIPv4] at h
  split at h
  · split at h
    · rename_i w x y z hw hx hy hz
      cases h
      have h1 := parseOctet_le hw
      have h2 := parseOctet_le hx
      have h3 := parseOctet_le hy
      have h4 := parseOctet_le hz
      omega
    · cases h
  · cases h

theorem maskAddr_le (a pfx : Nat) : maskAddr a pfx ≤ a := Nat.div_mul_le_self a _

theorem maskAddr_aligned (a pfx : Nat) : maskAddr a pfx % 2 ^ (32 - pfx) = 0 :=
  Nat.mul_mod_left _ _

/-- Every network `ip_network` accepts is well-formed. -/
theorem parseCidr_ok {s : String} {c : Cidr} (h : parseCidr s = some c) : CanonCidr c := by
  rw [parseCidr] at h
  split at h
  · rename_i ip heq
    match hp : parseIPv4 ip with
    | none =>
      rw [hp] at h
      cases h
    | some a =>
      rw [hp] at h
      have h2 : some (Cidr.mk a 32) = some c := h
      cases h2
      exact ⟨Nat.le_refl 32, parseIPv4_lt hp, Nat.mod_one a⟩
  · split at h
    · rename_i a pfx hpi hpf
      cases h
      exact ⟨parsePfx_le hpf,
        Nat.lt_of_le_of_lt (maskAddr_le a pfx) (parseIPv4_lt hpi),
        maskAddr_aligned a pfx⟩
    · cases h
  · cases h

/-- `collapse_addresses` depends only on the covered address set. -/
theorem collapse_ext {cs1 cs2 : List Cidr}
    (h : ∀ a, covers (cs1.map ivOf) a ↔ covers (cs2.map ivOf) a) :
    collapse_addresses cs1 = collapse_addresses cs2 := by
  rw [collapse_addresses, collapse_addresses,
    normalizeIvs_ext (map_ivOf_nonempty cs1) (map_ivOf_nonempty cs2) h]

theorem collapse_idem (cs : List Cidr) :
    collapse_addresses (collapse_addresses cs) = collapse_addresses cs :=
  collapse_ext (covers_collapse cs)

theorem filterMap_parse_render {L : List Cidr} (h : ∀ b ∈ L, CanonCidr b) :
    (L.map renderCidr).filterMap parseCidr = L := by
  induction L with
  | nil => rfl
  | cons b L0 ih =>
    have hb := parseCidr_renderCidr (h b (List.mem_cons_self _ _))
    simp only [List.map_cons, List.filterMap_cons, hb]
    rw [ih (fun x hx => h x (List.mem_cons_of_mem _ hx))]

/-- `DomainResolver.optimize_routes`: drop unparsable entries, collapse,
render back and sort (Python `sorted` on strings). -/
def optimize_routes (cidrs : List String) : List String :=
  if cidrs.isEmpty then []
  else sortStrs ((collapse_addresses (cidrs.filterMap parseCidr)).map renderCidr)

/-- `DomainResolver.KNOWN_CIDRS`, in insertion order. -/
def KNOWN_CIDRS : List (String × List String) := [
  ("openai.com", ["104.18.0.0/16", "172.64.0.0/13"]),
  ("chatgpt.com", ["104.18.0.0/16", "172.64.0.0/13"]),
  ("oaiusercontent.com", ["104.18.0.0/16", "172.64.0.0/13"]),
  ("claude.ai", ["104.18.0.0/16", "172.64.0.0/13"]),
  ("anthropic.com", ["104.18.0.0/16", "172.64.0.0/13"]),
  ("perplexity.ai", ["104.18.0.0/16", "172.64.0.0/13"]),
  ("google.com", ["142.250.0.0/15", "172.217.0.0/16", "216.58.192.0/19",
    "172.253.0.0/16", "74.125.0.0/16", "173.194.0.0/16"]),
  ("googleapis.com", ["142.250.0.0/15", "172.217.0.0/16", "172.253.0.0/16"]),
  ("gstatic.com", ["142.250.0.0/15", "172.217.0.0/16"]),
  ("googleusercontent.com", ["142.250.0.0/15", "172.217.0.0/16"]),
  ("youtube.com", ["142.250.0.0/15", "172.217.0.0/16", "216.58.192.0/19",
    "172.253.0.0/16", "74.125.0.0/16"]),
  ("googlevideo.com", ["142.250.0.0/15", "172.217.0.0/16", "172.253.0.0/16"]),
  ("ytimg.com", ["142.250.0.0/15", "172.217.0.0/16"]),
  ("ggpht.com", ["142.250.0.0/15", "172.217.0.0/16"]),
  ("netflix.com", ["23.246.0.0/18", "37.77.184.0/21", "45.57.0.0/17",
    "64.120.128.0/17", "108.175.32.0/20", "185.2.220.0/22",
    "185.9.188.0/22", "192.173.64.0/18", "198.38.96.0/19",
    "198.45.48.0/20"]),
  ("nflxvideo.net", ["23.246.0.0/18", "45.57.0.0/17", "185.2.220.0/22"]),
  ("nflxext.com", ["23.246.0.0/18", "45.57.0.0/17"]),
  ("nflximg.net", ["23.246.0.0/18", "45.57.0.0/17"]),
  ("facebook.com", ["157.240.0.0/16", "31.13.24.0/21", "31.13.64.0/18",
    "179.60.192.0/22", "185.60.216.0/22"]),
  ("fbcdn.net", ["157.240.0.0/16", "31.13.24.0/21"]),
  ("fb.com", ["157.240.0.0/16", "31.13.24.0/21"]),
  ("instagram.com", ["157.240.0.0/16", "31.13.24.0/21", "31.13.64.0/18"]),
  ("cdninstagram.com", ["157.240.0.0/16", "31.13.24.0/21"]),
  ("twitter.com", ["104.244.42.0/24", "104.244.46.0/24", "199.16.156.0/22",
    "199.59.148.0/22"]),
  ("x.com", ["104.244.42.0/24", "104.244.46.0/24", "199.16.156.0/22"]),
  ("twimg.com", ["104.244.42.0/24", "199.16.156.0/22"]),
  ("t.co", ["104.244.42.0/24"]),
  ("linkedin.com", ["108.174.0.0/20", "144.2.0.0/16"]),
  ("licdn.com", ["108.174.0.0/20", "144.2.0.0/16"]),
  ("github.com", ["140.82.112.0/20", "185.199.108.0/22", "192.30.252.0/22",
    "143.55.64.0/20"]),
  ("github.io", ["185.199.108.0/22"]),
  ("githubusercontent.com", ["185.199.108.0/22"]),
  ("githubassets.com", ["185.199.108.0/22"]),
  ("spotify.com", ["35.186.224.0/20", "78.31.8.0/21", "194.132.196.0/22"]),
  ("spotifycdn.com", ["35.186.224.0/20", "78.31.8.0/21"]),
  ("scdn.co", ["35.186.224.0/20", "78.31.8.0/21"]),
  ("discord.com", ["162.159.0.0/16"]),
  ("discord.gg", ["162.159.0.0/16"]),
  ("discordapp.com", ["162.159.0.0/16"]),
  ("tiktok.com", ["16.0.0.0/8", "34.0.0.0/8", "99.0.0.0/8"]),
  ("tiktokcdn.com", ["16.0.0.0/8", "34.0.0.0/8"]),
  ("cloudflare.com", ["104.16.0.0/12", "172.64.0.0/13"])]

def DEFAULT_CIDRS : List String := ["104.16.0.0/12", "172.64.0.0/13"]

def dropWww (d : List Char) : List Char :=
  if ("www.".data).isPrefixOf d then d.drop 4 else d

def lookupExact : List (String × List String) → List Char → Option (List String)
  | [], _ => none
  | (k, v) :: rest, d => if k.data = d then some v else lookupExact rest d

def lookupSuffix : List (String × List String) → List Char → Option (List String)
  | [], _ => none
  | (k, v) :: rest, d =>
    if ('.' :: k.data).isSuffixOf d then some v else lookupSuffix rest d

/-- `DomainResolver.resolve_domain`: lowercase, strip, drop a `www.`
prefix, exact dictionary hit, then subdomain hit in insertion order, else
the default ranges. -/
def resolve_domain (domain : String) : List String :=
  let d := dropWww (stripWs (domain.data.map Char.toLower))
  match lookupExact KNOWN_CIDRS d with
  | some v => v
  | none =>
    match lookupSuffix KNOWN_CIDRS d with
    | some v => v
    | none => DEFAULT_CIDRS

/-- `DomainResolver.resolve_domains`: the union of the per-domain lists —
a Python set, modelled as first-occurrence deduplication; its iteration
order is unspecified, and the order-independence theorem shows the result
does not depend on it — then `optimize_routes`. -/
def resolve_domains (domains : List String) : List String :=
  optimize_routes (domains.flatMap resolve_domain).dedup

theorem optimize_routes_perm {l1 l2 : List String} (h : l1.Perm l2) :
    optimize_routes l1 = optimize_routes l2 := by
  have hemp : l1.isEmpty = l2.isEmpty := by
    cases l1 with
    | nil =>
      rw [← h.nil_eq]
    | cons a t =>
      cases l2 with
      | nil =>
        have := h.symm.nil_eq
        cases this
      | cons b s => rfl
  rw [optimize_routes, optimize_routes, hemp]
  by_cases he : l2.isEmpty = true
  · rw [if_pos he, if_pos he]
  · rw [if_neg he, if_neg he]
    have hp : (l1.filterMap parseCidr).Perm (l2.filterMap parseCidr) := h.filterMap _
    rw [collapse_ext (fun a => covers_perm (hp.map ivOf))]

theorem optimize_sortStrs_render {L : List Cidr} (h : ∀ b ∈ L, CanonCidr b) :
    optimize_routes (sortStrs (L.map renderCidr)) =
      sortStrs ((collapse_addresses L).map renderCidr) := by
  cases L with
  | nil => rfl
  | cons b0 L0 =>
    have hne : (sortStrs ((b0 :: L0).map renderCidr)).isEmpty = false := by
      cases hs : sortStrs ((b0 :: L0).map renderCidr) with
      | nil =>
        have hperm := List.perm_insertionSort pyLe ((b0 :: L0).map renderCidr)
        rw [← sortStrs, hs] at hperm
        have h0 := hperm.nil_eq
        simp at h0
      | cons x xs => rfl
    rw [optimize_routes, if_neg (by rw [hne]; exact Bool.false_ne_true)]
    have hperm2 : ((sortStrs ((b0 :: L0).map renderCidr)).filterMap parseCidr).Perm
        (b0 :: L0) := by
      have h1 : (sortStrs ((b0 :: L0).map renderCidr)).Perm ((b0 :: L0).map renderCidr) := by
        rw [sortStrs]
        exact List.perm_insertionSort _ _
      have h2 := h1.filterMap parseCidr
      rw [filterMap_parse_render h] at h2
      exact h2
    rw [collapse_ext (fun a => covers_perm (hperm2.map ivOf))]

theorem optimize_routes_idem (l : List String) :
    optimize_routes (optimize_routes l) = optimize_routes l := by
  by_cases he : l.isEmpty = true
  · have h0 : optimize_routes l = [] := by rw [optimize_routes, if_pos he]
    rw [h0]
    rfl
  · have hXc : ∀ c ∈ l.filterMap parseCidr, CanonCidr c := by
      intro c hc
      obtain ⟨s, _, hs⟩ := List.mem_filterMap.mp hc
      exact parseCidr_ok hs
    have hopt : optimize_routes l =
        sortStrs ((collapse_addresses (l.filterMap parseCidr)).map renderCidr) := by
      rw [optimize_routes, if_neg he]
    rw [hopt, optimize_sortStrs_render (collapse_canon hXc), collapse_idem]

/-- C8: route collapsing is idempotent — `optimize_routes` applied to its
own output returns it unchanged, for every list of CIDR strings — and
`resolve_domains` is order-independent: permuting the input domain list
yields the same collapsed route list. -/
theorem c8_collapse_idempotent_order_independent :
    (∀ X : List String, optimize_routes (optimize_routes X) = optimize_routes X) ∧
    (∀ d1 d2 : List String, d1.Perm d2 → resolve_domains d1 = resolve_domains d2) := by
  refine ⟨optimize_routes_idem, ?_⟩
  intro d1 d2 h
  rw [resolve_domains, resolve_domains]
  exact optimize_routes_perm ((h.flatMap_right resolve_domain).dedup)

theorem c8_witness :
    optimize_routes (optimize_routes ["16.0.0.0/8", "104.16.0.0/12"]) =
      optimize_routes ["16.0.0.0/8", "104.16.0.0/12"] ∧
    resolve_domains ["tiktok.com", "discord.gg"] =
      resolve_domains ["discord.gg", "tiktok.com"] :=
  ⟨c8_collapse_idempotent_order_independent.1 ["16.0.0.0/8", "104.16.0.0/12"],
   c8_collapse_idempotent_order_independent.2 ["tiktok.com", "discord.gg"]
     ["discord.gg", "tiktok.com"] (List.Perm.swap "discord.gg" "tiktok.com" [])⟩

/-- C9 (amended): the route list `optimize_routes` returns is sorted
lexicographically as Python strings — by code point, not by numeric network
address — and contains no duplicates. -/
theorem c9_string_sorted_nodup (l : List String) :
    (optimize_routes l).Sorted pyLe ∧ (optimize_routes l).Nodup := by
  rw [optimize_routes]
  by_cases he : l.isEmpty = true
  · rw [if_pos he]
    exact ⟨List.sorted_nil, List.nodup_nil⟩
  · rw [if_neg he]
    have hXc : ∀ c ∈ l.filterMap parseCidr, CanonCidr c := by
      intro c hc
      obtain ⟨s, _, hs⟩ := List.mem_filterMap.mp hc
      exact parseCidr_ok hs
    have hcanon := collapse_canon hXc
    have hnd : (collapse_addresses (l.filterMap parseCidr)).Nodup := by
      refine List.Pairwise.imp ?_ (collapse_pairwise (l.filterMap parseCidr))
      intro b1 b2 hlt heq
      rw [heq] at hlt
      exact Nat.lt_irrefl _ hlt
    have hmapnd : ((collapse_addresses (l.filterMap parseCidr)).map renderCidr).Nodup := by
      refine List.Nodup.map_on ?_ hnd
      intro x hx y hy hxy
      have h1 := parseCidr_renderCidr (hcanon x hx)
      have h2 := parseCidr_renderCidr (hcanon y hy)
      rw [hxy, h2] at h1
      exact (Option.some_inj.mp h1).symm
    constructor
    · rw [sortStrs]
      exact List.sorted_insertionSort _ _
    · rw [sortStrs]
      exact (List.perm_insertionSort _ _).nodup_iff.mpr hmapnd

/-- The collapsed set of two disjoint networks is returned sorted as
strings: "104.16.0.0/12" precedes "16.0.0.0/8" although its network
address 104.16.0.0 is numerically larger than 16.0.0.0 — the output is not
in ascending network-address order. -/
theorem c9_counterexample :
    optimize_routes ["16.0.0.0/8", "104.16.0.0/12"] = ["104.16.0.0/12", "16.0.0.0/8"] ∧
    parseCidr "104.16.0.0/12" = some ⟨1745879040, 12⟩ ∧
    parseCidr "16.0.0.0/8" = some ⟨268435456, 8⟩ ∧
    268435456 < 1745879040 := by
  refine ⟨by decide, by decide, by decide, by decide⟩
